import Mathlib

/-!
Verification of `gh-action-auto-merge-dependency-updates` (`src/run.ts`).

This file gives a shallow embedding of the logic of the action:

* the semver handling used by `validVersionChange` (the `semver` npm package,
  v7.5+: `parse`, `compare`, `gte`, `diff`),
* the structural diff from the `deep-object-diff` npm package v1.1.9
  (`addedDiff`, `deletedDiff`, `updatedDiff`, `detailedDiff`),
* the evaluation pipeline of `run` (file scope check, structural diff check,
  property-shape check, per-dependency check) together with the side effects
  that matter for the claims (`maybeDisableAutoMerge`, the `success` output),
* the merge orchestration (`mergeWhenPossible` retry loop, `enableAutoMerge`).

Modelling conventions for JavaScript semantics:

* JS strings are modelled as Lean `String` / `List Char`.  The inputs of
  interest are ASCII, where JS UTF-16 `length` and Lean character counts
  agree.
* Thrown JS exceptions are modelled with `Option`/`Except`: `none` / `.error`
  means the surrounding code throws.
* The two manifests are produced by two separate `JSON.parse` calls, so no
  object or array in one tree is reference-equal (`===`) to anything in the
  other; `===` is therefore value equality on primitives and `false` whenever
  either side is an object or an array (`jsStrictEq`).
* `JSON.parse` never produces duplicate keys in one object, nor `undefined`
  values; `jsonWF` captures this well-formedness where a lemma needs it.
-/

/-- Decimal digit characters, as used by JS number-to-string conversion. -/
def digitCh : Nat → Char
  | 0 => '0'
  | 1 => '1'
  | 2 => '2'
  | 3 => '3'
  | 4 => '4'
  | 5 => '5'
  | 6 => '6'
  | 7 => '7'
  | 8 => '8'
  | 9 => '9'
  | _ => '*'

/-- Little-endian decimal digits of a natural number. -/
def natDigitsLE (n : Nat) : List Char :=
  if h : n < 10 then [digitCh n]
  else digitCh (n % 10) :: natDigitsLE (n / 10)
decreasing_by
  exact Nat.div_lt_self (by omega) (by omega)

/-- JS `String(n)` for a natural number: its decimal representation. -/
def natRepr (n : Nat) : String := String.mk (natDigitsLE n).reverse

/-- Numeric value of a big-endian digit-character list. -/
def digitsVal (cs : List Char) : Nat := cs.foldl (fun a c => a * 10 + (c.toNat - 48)) 0

theorem digitsVal_go (cs : List Char) (a : Nat) :
    cs.foldl (fun a c => a * 10 + (c.toNat - 48)) a =
      a * 10 ^ cs.length + digitsVal cs := by
  induction cs generalizing a with
  | nil => simp [digitsVal]
  | cons c rest ih =>
    have h2 : digitsVal (c :: rest) = (c.toNat - 48) * 10 ^ rest.length + digitsVal rest := by
      simp only [digitsVal, List.foldl_cons, Nat.zero_mul, Nat.zero_add]
      rw [ih]
      rfl
    simp only [List.foldl_cons, List.length_cons]
    rw [ih, h2]
    ring

theorem digitCh_toNat (d : Nat) (hd : d < 10) : (digitCh d).toNat - 48 = d := by
  interval_cases d <;> decide

theorem digitsVal_append_one (cs : List Char) (c : Char) :
    digitsVal (cs ++ [c]) = digitsVal cs * 10 + (c.toNat - 48) := by
  simp only [digitsVal, List.foldl_append, List.foldl_cons, List.foldl_nil]

theorem natRepr_roundtrip (n : Nat) : digitsVal (natDigitsLE n).reverse = n := by
  induction n using Nat.strong_induction_on with
  | _ n ih =>
    rw [natDigitsLE]
    by_cases h : n < 10
    · simp only [h, dif_pos, List.reverse_singleton]
      simp [digitsVal, digitCh_toNat n h]
    · simp only [h, dif_neg, not_false_iff, List.reverse_cons]
      rw [digitsVal_append_one, ih (n / 10) (Nat.div_lt_self (by omega) (by omega))]
      rw [digitCh_toNat (n % 10) (Nat.mod_lt _ (by omega))]
      omega

theorem natRepr_injective : Function.Injective natRepr := by
  intro m n h
  have hm := natRepr_roundtrip m
  have hn := natRepr_roundtrip n
  have : (natDigitsLE m).reverse = (natDigitsLE n).reverse := by
    have := congrArg String.data h
    simpa [natRepr] using this
  rw [this] at hm
  omega

/-- Decimal digit test (`[0-9]`). -/
def isDigitCh (c : Char) : Bool := decide ('0' ≤ c) && decide (c ≤ '9')

/-- Character class `[0-9A-Za-z-]` (semver identifier characters). -/
def isIdentCh (c : Char) : Bool :=
  isDigitCh c || (decide ('a' ≤ c) && decide (c ≤ 'z')) ||
    (decide ('A' ≤ c) && decide (c ≤ 'Z')) || c == '-'

/-- Whitespace recognised by the model of JS `String.prototype.trim`
(space, tab, newline, carriage return, vertical tab, form feed; the exotic
Unicode space characters of JS are not modelled, no claim involves them). -/
def isWsCh (c : Char) : Bool :=
  c == ' ' || c == '\t' || c == '\n' || c == '\r' || c == '\x0b' || c == '\x0c'

/-- JS `String.prototype.trim` on a character list. -/
def jsTrimL (cs : List Char) : List Char :=
  ((cs.dropWhile isWsCh).reverse.dropWhile isWsCh).reverse

/-- JS `String.prototype.trim`. -/
def jsTrim (s : String) : String := String.mk (jsTrimL s.data)

/-- JS `String.prototype.split` with a single-character separator
(`"".split(sep)` is `[""]`, separators at the ends produce empty parts). -/
def splitCh (sep : Char) : List Char → List (List Char)
  | [] => [[]]
  | c :: rest =>
    if c = sep then [] :: splitCh sep rest
    else
      match splitCh sep rest with
      | g :: gs => (c :: g) :: gs
      | [] => [[c]]

/-- Split at the first occurrence of `sep`: the part before it and,
if present, the part after it. -/
def splitFirst (sep : Char) : List Char → List Char × Option (List Char)
  | [] => ([], none)
  | c :: rest =>
    if c = sep then ([], some rest)
    else
      let (pre, post) := splitFirst sep rest
      (c :: pre, post)

/-- JS line terminators, which `.` in a regex without the `s` flag never
matches. -/
def isLineTermCh (c : Char) : Bool :=
  c == '\n' || c == '\r' || c == Char.ofNat 0x2028 || c == Char.ofNat 0x2029

/-! ## The `semver` npm package (v7.5+), as used by `validVersionChange`

`semver.gte` and `semver.diff` parse their string arguments with
`new SemVer(version)` (strict mode) and throw on an invalid version.
Parsing is modelled by `parseSemver`, returning `none` where node-semver
throws. -/

/-- The `Number.MAX_SAFE_INTEGER`. -/
def MAX_SAFE_INTEGER : Nat := 9007199254740991

/-- node-semver `MAX_LENGTH`: versions longer than 256 characters throw. -/
def SEMVER_MAX_LENGTH : Nat := 256

/-- A parsed semver prerelease identifier: node-semver stores an identifier
matching `/^[0-9]+$/` whose numeric value is below `MAX_SAFE_INTEGER` as a JS
number, any other identifier as a string. -/
inductive PreId where
  | num (n : Nat)
  | str (s : String)
  deriving DecidableEq, Repr

/-- A parsed semver version (`SemVer` class fields that matter for
`compare` and `diff`). -/
structure SemVer where
  major : Nat
  minor : Nat
  patch : Nat
  prerelease : List PreId
  build : List String
  deriving DecidableEq, Repr

/-- The `0|[1-9]\d*` — the strict `NUMERICIDENTIFIER` of node-semver:
all digits, no superfluous leading zero. -/
def isCanonicalNum : List Char → Bool
  | [] => false
  | c :: rest => (c :: rest).all isDigitCh && (c != '0' || rest.isEmpty)

/-- A valid strict prerelease identifier:
`0|[1-9]\d*|\d*[a-zA-Z-][a-zA-Z0-9-]*`, i.e. a non-empty run of
`[0-9A-Za-z-]` characters that, when purely numeric, has no leading zero. -/
def isValidPreIdChars (cs : List Char) : Bool :=
  !cs.isEmpty && cs.all isIdentCh && (!cs.all isDigitCh || isCanonicalNum cs)

/-- A valid build identifier: `[0-9A-Za-z-]+`. -/
def isValidBuildIdChars (cs : List Char) : Bool :=
  !cs.isEmpty && cs.all isIdentCh

/-- How the `SemVer` constructor stores one prerelease identifier. -/
def toPreId (cs : List Char) : PreId :=
  if cs.all isDigitCh && digitsVal cs < MAX_SAFE_INTEGER then .num (digitsVal cs)
  else .str (String.mk cs)

/-- Parse the dot-separated prerelease identifier list. -/
def parsePrerelease (cs : List Char) : Option (List PreId) :=
  let ids := splitCh '.' cs
  if ids.all isValidPreIdChars then some (ids.map toPreId) else none

/-- Parse the dot-separated build identifier list. -/
def parseBuild (cs : List Char) : Option (List String) :=
  let ids := splitCh '.' cs
  if ids.all isValidBuildIdChars then some (ids.map String.mk) else none

/-- Parse the `-prerelease+build` tail of a version. -/
def parseTail (cs : List Char) : Option (List PreId × List String) :=
  match cs with
  | [] => some ([], [])
  | '-' :: rest =>
    let (preCs, buildOpt) := splitFirst '+' rest
    match parsePrerelease preCs with
    | none => none
    | some pre =>
      match buildOpt with
      | none => some (pre, [])
      | some buildCs =>
        match parseBuild buildCs with
        | none => none
        | some b => some (pre, b)
  | '+' :: rest =>
    match parseBuild rest with
    | none => none
    | some b => some ([], b)
  | _ => none

/-- One `X.` step of the main version: a strict numeric identifier whose
value must not exceed `MAX_SAFE_INTEGER` (the constructor throws above it). -/
def parseMainComponent (cs : List Char) : Option (Nat × List Char) :=
  let (ds, rest) := cs.span isDigitCh
  if isCanonicalNum ds && digitsVal ds ≤ MAX_SAFE_INTEGER then some (digitsVal ds, rest)
  else none

/-- The `new SemVer(version)` in strict mode: length check, `trim`, optional `v`,
`major.minor.patch`, optional prerelease and build.  `none` models a thrown
`TypeError: Invalid Version`. -/
def parseSemver (s : String) : Option SemVer :=
  if s.data.length > SEMVER_MAX_LENGTH then none
  else
    let cs := jsTrimL s.data
    let cs := match cs with
      | 'v' :: rest => rest
      | other => other
    match parseMainComponent cs with
    | none => none
    | some (mj, r1) =>
      match r1 with
      | '.' :: r1' =>
        match parseMainComponent r1' with
        | none => none
        | some (mn, r2) =>
          match r2 with
          | '.' :: r2' =>
            match parseMainComponent r2' with
            | none => none
            | some (pt, r3) =>
              match parseTail r3 with
              | none => none
              | some (pre, b) => some ⟨mj, mn, pt, pre, b⟩
          | _ => none
      | _ => none

/-- Three-way comparison on `Nat`, as `compareIdentifiers` behaves on two
JS numbers. -/
def cmpNat (a b : Nat) : Int :=
  if a = b then 0 else if a < b then -1 else 1

/-- Three-way comparison on `String`, as JS `<` compares strings (the
identifiers compared here are ASCII, where JS UTF-16 order and Lean's
character order agree). -/
def cmpStr (a b : String) : Int :=
  if a = b then 0 else if a < b then -1 else 1

/-- node-semver `compareIdentifiers`: numeric identifiers sort before
alphanumeric ones and numerically among themselves.  A numeric-looking
string identifier (only produced for values at or above
`MAX_SAFE_INTEGER`) is still compared numerically by the JS code; its
float rounding at that magnitude is modelled as exact `Nat` comparison. -/
def compareIdentifiers : PreId → PreId → Int
  | .num a, .num b => cmpNat a b
  | .num a, .str b =>
    if b.data.all isDigitCh then cmpNat a (digitsVal b.data) else -1
  | .str a, .num b =>
    if a.data.all isDigitCh then cmpNat (digitsVal a.data) b else 1
  | .str a, .str b =>
    if a.data.all isDigitCh && b.data.all isDigitCh then
      cmpNat (digitsVal a.data) (digitsVal b.data)
    else if a.data.all isDigitCh then -1
    else if b.data.all isDigitCh then 1
    else cmpStr a b

/-- The `SemVer.prototype.compareMain`. -/
def compareMain (a b : SemVer) : Int :=
  if cmpNat a.major b.major ≠ 0 then cmpNat a.major b.major
  else if cmpNat a.minor b.minor ≠ 0 then cmpNat a.minor b.minor
  else cmpNat a.patch b.patch

/-- The identifier-list walk of `SemVer.prototype.comparePre`. -/
def comparePreIds : List PreId → List PreId → Int
  | [], [] => 0
  | _ :: _, [] => 1
  | [], _ :: _ => -1
  | x :: xs, y :: ys =>
    if x = y then comparePreIds xs ys else compareIdentifiers x y

/-- The `SemVer.prototype.comparePre`: a version with a prerelease sorts below
the same version without one. -/
def comparePre (a b : SemVer) : Int :=
  if !a.prerelease.isEmpty && b.prerelease.isEmpty then -1
  else if a.prerelease.isEmpty && !b.prerelease.isEmpty then 1
  else if a.prerelease.isEmpty && b.prerelease.isEmpty then 0
  else comparePreIds a.prerelease b.prerelease

/-- The `SemVer.prototype.compare` (build metadata is ignored). -/
def compareSemVer (a b : SemVer) : Int :=
  if compareMain a b ≠ 0 then compareMain a b else comparePre a b

/-- The `semver.gte(a, b)` on two already-parsed versions. -/
def semverGte (a b : SemVer) : Bool := compareSemVer a b ≥ 0

/-- The result values of `semver.diff` (never `null` when the versions
differ). -/
inductive BumpDiff where
  | major
  | premajor
  | minor
  | preminor
  | patch
  | prepatch
  | prerelease
  deriving DecidableEq, Repr

/-- The string `semver.diff` returns for each bump kind. -/
def bumpDiffStr : BumpDiff → String
  | .major => "major"
  | .premajor => "premajor"
  | .minor => "minor"
  | .preminor => "preminor"
  | .patch => "patch"
  | .prepatch => "prepatch"
  | .prerelease => "prerelease"

/-- The `semver.diff(version1, version2)` of node-semver v7.5.2+ on two parsed
versions; `none` is JS `null` (equal versions).  JS number truthiness
(`!lowVersion.patch` etc.) is zero-testing. -/
def semverDiff (v1 v2 : SemVer) : Option BumpDiff :=
  let comparison := compareSemVer v1 v2
  if comparison = 0 then none
  else
    let highVersion := if comparison > 0 then v1 else v2
    let lowVersion := if comparison > 0 then v2 else v1
    let highHasPre := !highVersion.prerelease.isEmpty
    let lowHasPre := !lowVersion.prerelease.isEmpty
    if lowHasPre && !highHasPre then
      if lowVersion.patch = 0 ∧ lowVersion.minor = 0 then some .major
      else if highVersion.patch ≠ 0 then some .patch
      else if highVersion.minor ≠ 0 then some .minor
      else some .major
    else
      let pre := highHasPre
      if v1.major ≠ v2.major then some (if pre then .premajor else .major)
      else if v1.minor ≠ v2.minor then some (if pre then .preminor else .minor)
      else if v1.patch ≠ v2.patch then some (if pre then .prepatch else .patch)
      else some .prerelease

/-! ## The action's own version handling (`src/run.ts`) -/

/-- Tail of `semverRegex` after the prefix: `[0-9]+\.[0-9]+\.[0-9]+(-.+)?$`.
`.` does not match line terminators (no `s` flag), `$` is the very end
(no `m` flag). -/
def semverRegexMain (cs : List Char) : Bool :=
  let (d1, r1) := cs.span isDigitCh
  match d1, r1 with
  | _ :: _, '.' :: r1' =>
    let (d2, r2) := r1'.span isDigitCh
    match d2, r2 with
    | _ :: _, '.' :: r2' =>
      let (d3, r3) := r2'.span isDigitCh
      match d3 with
      | _ :: _ =>
        match r3 with
        | [] => true
        | '-' :: t => !t.isEmpty && t.all (fun c => !isLineTermCh c)
        | _ => false
      | [] => false
    | _, _ => false
  | _, _ => false

/-- The `semverRegex = /^([~^]?)[0-9]+\.[0-9]+\.[0-9]+(-.+)?$/` of `run.ts`:
`some p` is a successful `exec` with capture group 1 equal to `p`
(the range prefix, `""`, `"~"` or `"^"`); `none` is a failed match. -/
def semverRegexCapture (s : String) : Option String :=
  match s.data with
  | c :: rest =>
    if c = '~' ∨ c = '^' then
      if semverRegexMain rest then some (String.mk [c]) else none
    else if semverRegexMain (c :: rest) then some "" else none
  | [] => none

/-- The `version.slice(versionPrefix.length)`. -/
def sliceFrom (s : String) (n : Nat) : String := String.mk (s.data.drop n)

/-- The `validBumpTypes` of `run.ts`. -/
def validBumpTypes : List String :=
  ["major", "premajor", "minor", "preminor", "patch", "prepatch", "prerelease"]

/-- The `validVersionChange(oldVersion, newVersion, allowedBumpTypes)` of
`run.ts`.  `none` models a thrown exception (`semver.gte` on a string that
passes the action's loose regex but is not a valid semver).  The
`allowed.includes(semver.diff(...))` step can compare with `null`, which is
never an element of the string list `allowed`. -/
def validVersionChange (oldVersion newVersion : String)
    (allowedBumpTypes : List String) : Option Bool :=
  match semverRegexCapture oldVersion with
  | none => some false
  | some oldVersionPfx =>
    match semverRegexCapture newVersion with
    | none => some false
    | some newVersionPfx =>
      if oldVersionPfx ≠ newVersionPfx then some false
      else
        let oldVersionExact := sliceFrom oldVersion oldVersionPfx.length
        let newVersionExact := sliceFrom newVersion newVersionPfx.length
        match parseSemver oldVersionExact, parseSemver newVersionExact with
        | some vo, some vn =>
          if semverGte vo vn then some false
          else
            let allowed := allowedBumpTypes.filter (fun t => validBumpTypes.contains t)
            some (match semverDiff vo vn with
              | some d => allowed.contains (bumpDiffStr d)
              | none => false)
        | _, _ => none

/-- The version-change classification the spec calls `classify`: the
decision of `validVersionChange` factored out of the configured
allowed-bump set.  `impossible` means the change is rejected regardless of
the configuration; `bump d` means it is allowed exactly when `d` is in the
configured set.  `none` models the thrown exception of `validVersionChange`. -/
inductive Classification where
  | impossible
  | bump (d : BumpDiff)
  deriving DecidableEq, Repr

/-- The `classify old new`: the classification realised by `validVersionChange`. -/
def classify (oldVersion newVersion : String) : Option Classification :=
  match semverRegexCapture oldVersion with
  | none => some .impossible
  | some oldVersionPfx =>
    match semverRegexCapture newVersion with
    | none => some .impossible
    | some newVersionPfx =>
      if oldVersionPfx ≠ newVersionPfx then some .impossible
      else
        match parseSemver (sliceFrom oldVersion oldVersionPfx.length),
            parseSemver (sliceFrom newVersion newVersionPfx.length) with
        | some vo, some vn =>
          if semverGte vo vn then some .impossible
          else
            match semverDiff vo vn with
            | some d => some (.bump d)
            | none => some .impossible
        | _, _ => none

/-- The `validVersionChange` is `classify` interpreted against the allowed-bump
set: this pins `classify` as the classification the code computes. -/
theorem validVersionChange_eq_classify (oldVersion newVersion : String)
    (allowedBumpTypes : List String) :
    validVersionChange oldVersion newVersion allowedBumpTypes =
      (classify oldVersion newVersion).map (fun c =>
        match c with
        | .impossible => false
        | .bump d =>
          (allowedBumpTypes.filter (fun t => validBumpTypes.contains t)).contains
            (bumpDiffStr d)) := by
  unfold validVersionChange classify
  cases semverRegexCapture oldVersion with
  | none => rfl
  | some p1 =>
    cases semverRegexCapture newVersion with
    | none => rfl
    | some p2 =>
      by_cases hp : p1 ≠ p2
      · simp [hp]
      · simp only [hp, if_false]
        cases parseSemver (sliceFrom oldVersion p1.length) with
        | none => rfl
        | some vo =>
          cases parseSemver (sliceFrom newVersion p2.length) with
          | none => rfl
          | some vn =>
            by_cases hg : semverGte vo vn
            · simp [hg]
            · simp only [hg, if_false]
              cases semverDiff vo vn <;> rfl

example : classify "0.0.1" "0.0.2" = some (.bump .patch) := by rfl
example : classify "0.0.1" "0.1.0" = some (.bump .minor) := by rfl
example : classify "0.0.1" "1.0.0" = some (.bump .major) := by rfl
example : classify "~0.0.1" "0.0.2" = some .impossible := by rfl
example : classify "1.2.3" "1.2.10" = some (.bump .patch) := by rfl
example : classify "1.0.0-alpha.1" "1.0.0-alpha.2" = some (.bump .prerelease) := by rfl
example : classify "1.0.0-alpha" "1.0.0" = some (.bump .major) := by rfl
example : classify "1.2.3-alpha" "1.2.3" = some (.bump .patch) := by rfl
example : classify "1.0.0" "1.0.1-alpha" = some (.bump .prepatch) := by rfl
example : classify "0.0.2" "0.0.1" = some .impossible := by rfl
example : classify "^1.0.0" "^1.0.1" = some (.bump .patch) := by rfl
example : classify "1.0.0" "1.0.0" = some .impossible := by rfl
example : validVersionChange "0.0.1" "0.0.2" ["patch"] = some true := by rfl
example : validVersionChange "0.0.1" "0.0.2" ["minor"] = some false := by rfl
example : validVersionChange "0.0.1" "0.0.2" ["bogus", "patch"] = some true := by rfl
example : validVersionChange "1.0.0" "1.0.1-x y" [] = none := by rfl

/-! ## Parsing the `allowed-update-types` input (`run.ts` lines 69–88) -/

/-- JS `group.trim().split(':', 2).map((a) => a.trim())`: the full split
truncated to its first two parts. -/
def splitColonLimit2 (g : List Char) : List (List Char) :=
  ((splitCh ':' (jsTrimL g)).take 2).map jsTrimL

/-- The comma-separated groups of the input after
`.split(',').map((a) => a.trim()).filter(Boolean)` (an empty string is
falsy and is dropped). -/
def updateTypeGroups (input : String) : List (List Char) :=
  ((splitCh ',' input.data).map jsTrimL).filter (fun g => !g.isEmpty)

/-- The `forEach` body over the groups, accumulating
`allowedUpdateTypes[dependencyType].push(bumpType)` entries in order;
`.error` models the thrown `new Error('allowed-update-types invalid')`. -/
def parseUpdateTypeGroups : List (List Char) → Except String (List (String × String))
  | [] => .ok []
  | g :: rest =>
    match splitColonLimit2 g with
    | [dependencyType, bumpType] =>
      match parseUpdateTypeGroups rest with
      | .ok l => .ok ((String.mk dependencyType, String.mk bumpType) :: l)
      | .error e => .error e
    | _ => .error "allowed-update-types invalid"

/-- Parsing of the `allowed-update-types` action input: the
`Record<string, string[]>` is modelled as the ordered list of
`(dependencyType, bumpType)` pushes. -/
def parseAllowedUpdateTypes (input : String) : Except String (List (String × String)) :=
  parseUpdateTypeGroups (updateTypeGroups input)

/-- The `allowedUpdateTypes[prop] || []`: all bump types pushed for a category,
in push order (`[]` when the category never occurs). -/
def lookupUpdateTypes (allowedUpdateTypes : List (String × String))
    (prop : String) : List String :=
  (allowedUpdateTypes.filter (fun p => p.1 == prop)).map (fun p => p.2)

example : parseAllowedUpdateTypes "devDependencies:minor, devDependencies:patch" =
    .ok [("devDependencies", "minor"), ("devDependencies", "patch")] := by rfl
example : parseAllowedUpdateTypes "" = .ok [] := by rfl
example : parseAllowedUpdateTypes "devDependencies" =
    .error "allowed-update-types invalid" := by rfl
example : parseAllowedUpdateTypes "dependencies:major:minor" =
    .ok [("dependencies", "major")] := by rfl
example : parseAllowedUpdateTypes "dependencies:bogus" =
    .ok [("dependencies", "bogus")] := by rfl
example : parseAllowedUpdateTypes " , dependencies:patch,, " =
    .ok [("dependencies", "patch")] := by rfl

/-! ## JS values and the `deep-object-diff` package (v1.1.9) -/

/-- A JS value as it occurs in this program: `JSON.parse` output plus the
`undefined` marker that `deletedDiff` writes into its result. -/
inductive Json where
  | null
  | undefVal
  | bool (b : Bool)
  | num (n : Int)
  | str (s : String)
  | arr (xs : List Json)
  | obj (kvs : List (String × Json))

/-- The `isObject` of deep-object-diff: `o != null && typeof o === 'object'`. -/
def isObject : Json → Bool
  | .arr _ => true
  | .obj _ => true
  | _ => false

/-- The `Array.isArray`. -/
def isArrayJ : Json → Bool
  | .arr _ => true
  | _ => false

/-- JS `typeof`. -/
def jsTypeof : Json → String
  | .null => "object"
  | .undefVal => "undefined"
  | .bool _ => "boolean"
  | .num _ => "number"
  | .str _ => "string"
  | .arr _ => "object"
  | .obj _ => "object"

/-- JS truthiness. -/
def jsTruthy : Json → Bool
  | .null => false
  | .undefVal => false
  | .bool b => b
  | .num n => n ≠ 0
  | .str s => !s.isEmpty
  | .arr _ => true
  | .obj _ => true

/-- JS `===` between a value of the base manifest tree and a value of the
head manifest tree.  The two trees come from separate `JSON.parse` calls, so
no object or array of one is reference-equal to anything in the other;
primitives compare by value. -/
def jsStrictEq : Json → Json → Bool
  | .null, .null => true
  | .undefVal, .undefVal => true
  | .bool a, .bool b => a == b
  | .num a, .num b => a == b
  | .str a, .str b => a == b
  | _, _ => false

/-- The string keys of an array, as produced by `Object.keys`:
`"0"`, `"1"`, … paired with the elements, starting at index `start`. -/
def arrEntries (start : Nat) : List Json → List (String × Json)
  | [] => []
  | x :: rest => (natRepr start, x) :: arrEntries (start + 1) rest

/-- The own enumerable entries of a JS value: `Object.keys(o)` paired with
`o[key]`.  Strings expose their character positions; other primitives have
none. -/
def jsonEntries : Json → List (String × Json)
  | .obj kvs => kvs
  | .arr xs => arrEntries 0 xs
  | .str s => arrEntries 0 (s.data.map (fun c => .str (String.mk [c])))
  | _ => []

/-- The `Object.keys`. -/
def jsonKeys (j : Json) : List String := (jsonEntries j).map (fun kv => kv.1)

/-- The `isEmptyObject` of deep-object-diff: `isObject(o) && Object.keys(o).length === 0`. -/
def isEmptyObj (j : Json) : Bool := isObject j && (jsonEntries j).isEmpty

mutual
/-- The `addedDiff(lhs, rhs)` of deep-object-diff v1.1.9.  The `lhs === rhs`
short-circuit never fires here: scalars fall into the `!isObject` guard and
objects of the two separately parsed trees are never reference-equal. -/
def addedDiff (lhs : Json) : Json → Json
  | .obj rkvs => if isObject lhs then .obj (addedGo (jsonEntries lhs) rkvs) else .obj []
  | .arr xs => if isObject lhs then .obj (addedGoArr (jsonEntries lhs) 0 xs) else .obj []
  | _ => .obj []

/-- The `Object.keys(rhs).reduce` body of `addedDiff` over object entries. -/
def addedGo (lentries : List (String × Json)) : List (String × Json) → List (String × Json)
  | [] => []
  | (k, v) :: rest =>
    let tail := addedGo lentries rest
    match List.lookup k lentries with
    | some lv =>
      let d := addedDiff lv v
      if isObject d && (jsonEntries d).isEmpty then tail else (k, d) :: tail
    | none => (k, v) :: tail

/-- The `reduce` body of `addedDiff` over array elements (keyed by index). -/
def addedGoArr (lentries : List (String × Json)) (i : Nat) :
    List Json → List (String × Json)
  | [] => []
  | v :: rest =>
    let tail := addedGoArr lentries (i + 1) rest
    match List.lookup (natRepr i) lentries with
    | some lv =>
      let d := addedDiff lv v
      if isObject d && (jsonEntries d).isEmpty then tail else (natRepr i, d) :: tail
    | none => (natRepr i, v) :: tail
end

mutual
/-- The `deletedDiff(lhs, rhs)` of deep-object-diff v1.1.9: keys of `lhs`
missing from `rhs`, each reported with value `undefined`. -/
def deletedDiff : Json → Json → Json
  | .obj lkvs, rhs => if isObject rhs then .obj (deletedGo (jsonEntries rhs) lkvs) else .obj []
  | .arr xs, rhs => if isObject rhs then .obj (deletedGoArr (jsonEntries rhs) 0 xs) else .obj []
  | _, _ => .obj []

/-- The `Object.keys(lhs).reduce` body of `deletedDiff` over object entries. -/
def deletedGo (rentries : List (String × Json)) : List (String × Json) → List (String × Json)
  | [] => []
  | (k, v) :: rest =>
    let tail := deletedGo rentries rest
    match List.lookup k rentries with
    | some rv =>
      let d := deletedDiff v rv
      if isObject d && (jsonEntries d).isEmpty then tail else (k, d) :: tail
    | none => (k, .undefVal) :: tail

/-- The `reduce` body of `deletedDiff` over array elements. -/
def deletedGoArr (rentries : List (String × Json)) (i : Nat) :
    List Json → List (String × Json)
  | [] => []
  | v :: rest =>
    let tail := deletedGoArr rentries (i + 1) rest
    match List.lookup (natRepr i) rentries with
    | some rv =>
      let d := deletedDiff v rv
      if isObject d && (jsonEntries d).isEmpty then tail else (natRepr i, d) :: tail
    | none => (natRepr i, .undefVal) :: tail
end

mutual
/-- The `updatedDiff(lhs, rhs)` of deep-object-diff v1.1.9.  For non-objects the
changed `rhs` value itself is the diff; the `isDate` branches are dead in a
tree produced by `JSON.parse`. -/
def updatedDiff (lhs : Json) : Json → Json
  | .obj rkvs =>
    if isObject lhs then .obj (updatedGo (jsonEntries lhs) rkvs) else .obj rkvs
  | .arr xs =>
    if isObject lhs then .obj (updatedGoArr (jsonEntries lhs) 0 xs) else .arr xs
  | rhs => if jsStrictEq lhs rhs then .obj [] else rhs

/-- The `Object.keys(rhs).reduce` body of `updatedDiff`: an empty
difference is dropped unless it records an update to a (non-empty to empty)
object. -/
def updatedGo (lentries : List (String × Json)) : List (String × Json) → List (String × Json)
  | [] => []
  | (k, v) :: rest =>
    let tail := updatedGo lentries rest
    match List.lookup k lentries with
    | some lv =>
      let d := updatedDiff lv v
      if isEmptyObj d && (isEmptyObj lv || !isEmptyObj v) then tail else (k, d) :: tail
    | none => tail

/-- The `reduce` body of `updatedDiff` over array elements. -/
def updatedGoArr (lentries : List (String × Json)) (i : Nat) :
    List Json → List (String × Json)
  | [] => []
  | v :: rest =>
    let tail := updatedGoArr lentries (i + 1) rest
    match List.lookup (natRepr i) lentries with
    | some lv =>
      let d := updatedDiff lv v
      if isEmptyObj d && (isEmptyObj lv || !isEmptyObj v) then tail else (natRepr i, d) :: tail
    | none => tail
end

/-- The result shape of `detailedDiff`. -/
structure DetailedDiff where
  added : Json
  deleted : Json
  updated : Json

/-- The `detailedDiff(lhs, rhs)` of deep-object-diff v1.1.9. -/
def detailedDiff (lhs rhs : Json) : DetailedDiff :=
  ⟨addedDiff lhs rhs, deletedDiff lhs rhs, updatedDiff lhs rhs⟩

example :
    updatedDiff (.obj [("dependencies", .obj [("mod1", .str "0.0.1"), ("mod2", .str "1.0.0")])])
      (.obj [("dependencies", .obj [("mod1", .str "0.0.2"), ("mod2", .str "1.0.0")])]) =
      .obj [("dependencies", .obj [("mod1", .str "0.0.2")])] := by rfl
example :
    addedDiff (.obj [("a", .num 1)]) (.obj [("a", .num 2), ("b", .null)]) =
      .obj [("b", .null)] := by rfl
example :
    deletedDiff (.obj [("a", .num 1), ("c", .num 3)]) (.obj [("a", .num 2)]) =
      .obj [("c", .undefVal)] := by rfl
example :
    updatedDiff (.obj [("deps", .null)]) (.obj [("deps", .obj [("m", .str "1.0.0")])]) =
      .obj [("deps", .obj [("m", .str "1.0.0")])] := by rfl

/-! ## The evaluation pipeline of `run` (`src/run.ts`) -/

/-- JS property read `o[k]` when `o` is neither `null` nor `undefined`:
the own property, else `undefined`. -/
def jsGetD (j : Json) (k : String) : Json := (List.lookup k (jsonEntries j)).getD .undefVal

/-- JS property read `o[k]` including the `TypeError` thrown on `null` and
`undefined` receivers. -/
def jsIndex (j : Json) (k : String) : Except Unit Json :=
  match j with
  | .null => .error ()
  | .undefVal => .error ()
  | _ => .ok (jsGetD j k)

/-- The `allowedFileChanges` of `run.ts`. -/
def allowedFileChanges : List String :=
  ["package.json", "package-lock.json", "yarn.lock", ".pnp.cjs"]

/-- One entry of `comparison.data.files`. -/
structure ChangedFile where
  filename : String
  status : String

/-- The `onlyAllowedFilesChanged` of `run.ts`. -/
def onlyAllowedFilesChanged (files : List ChangedFile) : Bool :=
  files.all (fun f => allowedFileChanges.contains f.filename && f.status == "modified")

/-- The identity the action compares the auto-merge enabler against:
the authenticated user's login, or `github-actions` if that fetch failed. -/
def ownLogin : Option String → String
  | some login => login
  | none => "github-actions"

/-- The `maybeDisableAutoMerge` of `run.ts`: whether the
`disablePullRequestAutoMerge` mutation is performed.  `autoMergeRequest`
carries the `enabledBy.login` of an existing auto-merge request, if any. -/
def maybeDisableAutoMerge (autoMerge : Bool) (autoMergeRequest : Option String)
    (maybeAuthenticatedUser : Option String) : Bool :=
  if !autoMerge then false
  else
    match autoMergeRequest with
    | none => false
    | some enabledBy => enabledBy == ownLogin maybeAuthenticatedUser

/-- The `allowedPropsChanges` predicate of `run.ts`: every updated top-level
key is a recognised dependency category whose diff value is a truthy,
non-array object. -/
def allowedPropsCheck (updated : Json) : Bool :=
  (jsonKeys updated).all (fun prop =>
    (["dependencies", "devDependencies"].contains prop) &&
    jsTruthy (jsGetD updated prop) &&
    jsTypeof (jsGetD updated prop) == "object" &&
    !isArrayJ (jsGetD updated prop))

/-- The body of the inner `every` of `allowedChange` for one dependency.
A `.str` value is exactly a value of `typeof 'string'`. -/
def checkDependency (packageAllowList : Option (List String))
    (packageBlockList : List String) (allowedBumpTypes : List String)
    (packageJsonBase packageJsonPr : Json) (prop dep : String)
    (changedDependencies : Json) : Except Unit Bool :=
  if jsTypeof (jsGetD changedDependencies dep) ≠ "string" then .ok false
  else if (match packageAllowList with
    | some l => !l.contains dep
    | none => false) then .ok false
  else if packageBlockList.contains dep then .ok false
  else do
    let basePropVal ← jsIndex packageJsonBase prop
    let oldVersion ← jsIndex basePropVal dep
    let prPropVal ← jsIndex packageJsonPr prop
    let newVersion ← jsIndex prPropVal dep
    match oldVersion, newVersion with
    | .str o, .str n =>
      match validVersionChange o n allowedBumpTypes with
      | some b => pure b
      | none => .error ()
    | _, _ => pure false

/-- The `Array.prototype.every` with a body that can throw: stops at the first
`false` or the first exception. -/
def jsEveryM (f : α → Except Unit Bool) : List α → Except Unit Bool
  | [] => .ok true
  | x :: rest =>
    match f x with
    | .error e => .error e
    | .ok true => jsEveryM f rest
    | .ok false => .ok false

/-- The `allowedChange` predicate of `run.ts` (its evaluation can throw:
reading a dependency's old version off a `null` category value). -/
def allowedChangeCheck (allowedUpdateTypes : List (String × String))
    (packageAllowList : Option (List String)) (packageBlockList : List String)
    (packageJsonBase packageJsonPr updated : Json) : Except Unit Bool :=
  jsEveryM (fun prop =>
    let allowedBumpTypes := lookupUpdateTypes allowedUpdateTypes prop
    let changedDependencies := jsGetD updated prop
    jsEveryM (fun dep =>
      checkDependency packageAllowList packageBlockList allowedBumpTypes
        packageJsonBase packageJsonPr prop dep changedDependencies)
      (jsonKeys changedDependencies))
    (jsonKeys updated)

/-- The decisions the evaluation part of `run` can reach (the matching
members of the `Result` enum, plus `accepted` for the fall-through into
approval/merge). -/
inductive Decision where
  | unknownEvent
  | actorNotAllowed
  | fileNotAllowed
  | unexpectedChanges
  | unexpectedPropertyChange
  | versionChangeNotAllowed
  | accepted
  deriving DecidableEq, Repr

/-- The configuration of one run, after input parsing. -/
structure RunConfig where
  allowedActors : List String
  allowedUpdateTypes : List (String × String)
  approve : Bool
  packageBlockList : List String
  packageAllowList : Option (List String)
  autoMerge : Bool
  merge : Bool

/-- The per-PR facts the evaluation consumes. -/
structure PRInput where
  eventName : String
  actor : String
  files : List ChangedFile
  packageJsonBase : Json
  packageJsonPr : Json
  autoMergeRequest : Option String
  maybeAuthenticatedUser : Option String
  headSha : String

/-- The outcome of the evaluation: the decision (`.error` models an
uncaught exception) together with the observable side effects reached on
the way — whether `disablePullRequestAutoMerge` was performed and whether
the `success` output was set. -/
structure EvalOut where
  result : Except Unit Decision
  disabledAutoMerge : Bool
  setSuccess : Bool
  deriving Repr

/-- The supported webhook events of `run.ts`. -/
def supportedEvents : List String :=
  ["pull_request", "pull_request_target", "pull_request_review"]

/-- The evaluation part of `run` (`src/run.ts` lines 49–496): event gate,
actor gate, file-scope check, structural-diff check, property-shape check,
per-dependency check.  `maybeDisableAutoMerge` runs exactly on the four
in-evaluation reject paths. -/
def runEval (cfg : RunConfig) (input : PRInput) : EvalOut :=
  if !supportedEvents.contains input.eventName then ⟨.ok .unknownEvent, false, false⟩
  else if !cfg.allowedActors.contains input.actor then ⟨.ok .actorNotAllowed, false, false⟩
  else if !onlyAllowedFilesChanged input.files then
    ⟨.ok .fileNotAllowed,
      maybeDisableAutoMerge cfg.autoMerge input.autoMergeRequest input.maybeAuthenticatedUser,
      false⟩
  else if !(jsonKeys (detailedDiff input.packageJsonBase input.packageJsonPr).added).isEmpty
      || !(jsonKeys (detailedDiff input.packageJsonBase input.packageJsonPr).deleted).isEmpty then
    ⟨.ok .unexpectedChanges,
      maybeDisableAutoMerge cfg.autoMerge input.autoMergeRequest input.maybeAuthenticatedUser,
      false⟩
  else if !allowedPropsCheck (detailedDiff input.packageJsonBase input.packageJsonPr).updated then
    ⟨.ok .unexpectedPropertyChange,
      maybeDisableAutoMerge cfg.autoMerge input.autoMergeRequest input.maybeAuthenticatedUser,
      false⟩
  else
    match allowedChangeCheck cfg.allowedUpdateTypes cfg.packageAllowList
      cfg.packageBlockList input.packageJsonBase input.packageJsonPr
      (detailedDiff input.packageJsonBase input.packageJsonPr).updated with
    | .error e => ⟨.error e, false, false⟩
    | .ok false =>
      ⟨.ok .versionChangeNotAllowed,
        maybeDisableAutoMerge cfg.autoMerge input.autoMergeRequest input.maybeAuthenticatedUser,
        false⟩
    | .ok true => ⟨.ok .accepted, false, true⟩

/-! ## Merge orchestration (`mergeWhenPossible`, `enableAutoMerge`) -/

/-- The `retryDelays` of `run.ts`: `[1,1,1,2,3,4,5,10,20,40,60].map((a) => a * 1000)`
milliseconds. -/
def retryDelays : List Nat := [1, 1, 1, 2, 3, 4, 5, 10, 20, 40, 60].map (fun a => a * 1000)

/-- The `timeout` of `run.ts`: six hours in milliseconds. -/
def timeoutMs : Nat := 6 * 60 * 60 * 1000

/-- The `retryDelays[Math.min(retryDelays.length - 1, i)]`: the delay slept
after attempt `i`. -/
def delayFor (i : Nat) : Nat := retryDelays.getD (min (retryDelays.length - 1) i) 0

/-- What one iteration of the `mergeWhenPossible` loop observes: the fresh
PR state and, when a merge is attempted, its outcome. -/
inductive PollStep where
  | notOpen
  | notMergeable
  | mergeableMerged
  | mergeableConflict
  | mergeableOtherError
  deriving DecidableEq, Repr

/-- The return values of `mergeWhenPossible`. -/
inductive MergeOutcome where
  | prNotOpen
  | prHeadChanged
  | prMerged
  deriving DecidableEq, Repr

/-- The fatal errors the orchestration can throw. -/
inductive Thrown where
  | typeError
  | timedOut
  | autoMergeNotAllowed
  | mergeFailed
  deriving DecidableEq, Repr

/-- The `for (let i = 0; ; i++)` loop of `mergeWhenPossible`.  `poll i`
is what iteration `i` observes; `clock i` is `Date.now()` at iteration
`i`'s deadline check and `start` is the `startTime` of the run.  The
returned `Nat` accumulates the total retry delay slept (`slept` on entry).
`fuel` only bounds the modelled unrolling: `none` means the loop was still
running after `fuel` iterations. -/
def mergeWhenPossible (poll : Nat → PollStep) (clock : Nat → Nat) (start : Nat) :
    Nat → Nat → Nat → Option (Except Thrown (MergeOutcome × Nat))
  | 0, _, _ => none
  | fuel + 1, i, slept =>
    match poll i with
    | .notOpen => some (.ok (.prNotOpen, slept))
    | .mergeableMerged => some (.ok (.prMerged, slept))
    | .mergeableConflict => some (.ok (.prHeadChanged, slept))
    | .notMergeable | .mergeableOtherError =>
      if clock i - start ≥ timeoutMs then some (.error .timedOut)
      else mergeWhenPossible poll clock start fuel (i + 1) (slept + delayFor i)

/-- The results of `enableAutoMerge`. -/
inductive AutoMergeOutcome where
  | autoMergeEnabled
  | prMerged
  deriving DecidableEq, Repr

/-- The revision-guarded remote requests `enableAutoMerge` issues: the
`expectedHeadOid` passed to `enablePullRequestAutoMerge` and the `sha`
passed to the fallback `pulls.merge`, when each happens. -/
structure AutoMergeTrace where
  enableRequestOid : Option String
  mergeRequestSha : Option String
  deriving Repr

/-- The `enableAutoMerge` of `run.ts`: fatal when the repository does not allow
auto merge; otherwise try to enable auto-merge guarded by the current head
revision, falling back to a single direct merge attempt (whose failure
propagates as an exception) guarded by the same revision. -/
def enableAutoMerge (repoAutoMergeAllowed enableSucceeds fallbackMergeSucceeds : Bool)
    (headSha : String) : Except Thrown AutoMergeOutcome × AutoMergeTrace :=
  if !repoAutoMergeAllowed then (.error .autoMergeNotAllowed, ⟨none, none⟩)
  else if enableSucceeds then (.ok .autoMergeEnabled, ⟨some headSha, none⟩)
  else if fallbackMergeSucceeds then (.ok .prMerged, ⟨some headSha, some headSha⟩)
  else (.error .mergeFailed, ⟨some headSha, some headSha⟩)

/-- The `Result` enum of the action, including the `AutoMergeEnabled`
member referenced by the current `run.ts`. -/
inductive Result where
  | unknownEvent
  | actorNotAllowed
  | fileNotAllowed
  | unexpectedChanges
  | unexpectedPropertyChange
  | versionChangeNotAllowed
  | prNotOpen
  | prHeadChanged
  | prMerged
  | prMergeSkipped
  | autoMergeEnabled
  deriving DecidableEq, Repr

/-- The `Result` a non-accepted decision maps to. -/
def decisionResult : Decision → Result
  | .unknownEvent => .unknownEvent
  | .actorNotAllowed => .actorNotAllowed
  | .fileNotAllowed => .fileNotAllowed
  | .unexpectedChanges => .unexpectedChanges
  | .unexpectedPropertyChange => .unexpectedPropertyChange
  | .versionChangeNotAllowed => .versionChangeNotAllowed
  | .accepted => .prMergeSkipped

/-- The remote behaviour the merge phase runs against. -/
structure MergeEnv where
  poll : Nat → PollStep
  clock : Nat → Nat
  start : Nat
  fuel : Nat
  repoAutoMergeAllowed : Bool
  enableSucceeds : Bool
  fallbackMergeSucceeds : Bool

/-- The `run` end to end: evaluation, then (on acceptance, when `merge` is
configured) either `enableAutoMerge` or the `mergeWhenPossible` loop.
`none` models only exhausted modelling fuel for the loop. -/
def runModel (cfg : RunConfig) (input : PRInput) (env : MergeEnv) :
    Option (Except Thrown Result) × EvalOut :=
  let ev := runEval cfg input
  match ev.result with
  | .error _ => (some (.error .typeError), ev)
  | .ok .accepted =>
    if cfg.merge then
      if cfg.autoMerge then
        let r := (enableAutoMerge env.repoAutoMergeAllowed env.enableSucceeds
          env.fallbackMergeSucceeds input.headSha).1
        (some (r.map (fun o => match o with
          | .autoMergeEnabled => Result.autoMergeEnabled
          | .prMerged => Result.prMerged)), ev)
      else
        match mergeWhenPossible env.poll env.clock env.start env.fuel 0 0 with
        | none => (none, ev)
        | some (.error e) => (some (.error e), ev)
        | some (.ok (o, _)) => (some (.ok (match o with
          | .prNotOpen => Result.prNotOpen
          | .prHeadChanged => Result.prHeadChanged
          | .prMerged => Result.prMerged)), ev)
    else (some (.ok .prMergeSkipped), ev)
  | .ok d => (some (.ok (decisionResult d)), ev)

/-! ## Lemmas about the retry loop -/

/-- Sum of the delays slept for attempts `i, i+1, …, i+n-1`. -/
def sumDelays (i : Nat) : Nat → Nat
  | 0 => 0
  | n + 1 => delayFor i + sumDelays (i + 1) n

theorem mergeWhenPossible_step_continue (poll : Nat → PollStep) (clock : Nat → Nat)
    (start fuel i slept : Nat)
    (hp : poll i = .notMergeable ∨ poll i = .mergeableOtherError)
    (hc : clock i - start < timeoutMs) :
    mergeWhenPossible poll clock start (fuel + 1) i slept =
      mergeWhenPossible poll clock start fuel (i + 1) (slept + delayFor i) := by
  rcases hp with h | h <;>
    simp [mergeWhenPossible, h, Nat.not_le.mpr hc]

theorem mergeWhenPossible_skip (poll : Nat → PollStep) (clock : Nat → Nat)
    (start : Nat) (n : Nat) :
    ∀ fuel i slept,
    (∀ j, j < n → (poll (i + j) = .notMergeable ∨ poll (i + j) = .mergeableOtherError)) →
    (∀ j, j < n → clock (i + j) - start < timeoutMs) →
    mergeWhenPossible poll clock start (fuel + n) i slept =
      mergeWhenPossible poll clock start fuel (i + n) (slept + sumDelays i n) := by
  induction n with
  | zero => intro fuel i slept _ _; simp [sumDelays]
  | succ n ih =>
    intro fuel i slept hp hc
    have h0 : poll i = .notMergeable ∨ poll i = .mergeableOtherError := by
      simpa using hp 0 (Nat.succ_pos n)
    have hc0 : clock i - start < timeoutMs := by simpa using hc 0 (Nat.succ_pos n)
    have : fuel + (n + 1) = (fuel + n) + 1 := by omega
    rw [this, mergeWhenPossible_step_continue poll clock start (fuel + n) i slept h0 hc0]
    rw [ih fuel (i + 1) (slept + delayFor i)
      (fun j hj => by simpa [Nat.add_assoc, Nat.add_comm 1 j] using hp (j + 1) (by omega))
      (fun j hj => by simpa [Nat.add_assoc, Nat.add_comm 1 j] using hc (j + 1) (by omega))]
    have h1 : i + 1 + n = i + (n + 1) := by omega
    have h2 : slept + delayFor i + sumDelays (i + 1) n = slept + sumDelays i (n + 1) := by
      simp [sumDelays, Nat.add_assoc]
    rw [h1, h2]

theorem mergeWhenPossible_merged (poll : Nat → PollStep) (clock : Nat → Nat)
    (start fuel i slept : Nat) (h : poll i = .mergeableMerged) :
    mergeWhenPossible poll clock start (fuel + 1) i slept =
      some (.ok (.prMerged, slept)) := by
  simp [mergeWhenPossible, h]

theorem mergeWhenPossible_timeout_step (poll : Nat → PollStep) (clock : Nat → Nat)
    (start fuel i slept : Nat)
    (hp : poll i = .notMergeable ∨ poll i = .mergeableOtherError)
    (hc : clock i - start ≥ timeoutMs) :
    mergeWhenPossible poll clock start (fuel + 1) i slept = some (.error .timedOut) := by
  rcases hp with h | h <;> simp [mergeWhenPossible, h, hc]

/-- Claim C4: the polling loop delays between attempts according to the fixed
schedule 1,1,1,2,3,4,5,10,20,40,60 seconds (in milliseconds), holding at 60
seconds past the end of the schedule; and when the PR is not mergeable for
exactly three polls and then mergeable, the total retry delay slept before
the successful merge is 1+1+1 seconds. -/
theorem claim_C4_retry_schedule :
    ((List.range 11).map delayFor =
      [1000, 1000, 1000, 2000, 3000, 4000, 5000, 10000, 20000, 40000, 60000]) ∧
    (∀ i, 10 ≤ i → delayFor i = 60000) ∧
    (∀ (poll : Nat → PollStep) (clock : Nat → Nat) (start fuel : Nat),
      (∀ j, j < 3 → poll j = .notMergeable) →
      poll 3 = .mergeableMerged →
      (∀ j, j < 3 → clock j - start < timeoutMs) →
      mergeWhenPossible poll clock start (fuel + 4) 0 0 =
        some (.ok (.prMerged, 1000 + 1000 + 1000))) := by
  refine ⟨by rfl, ?_, ?_⟩
  · intro i hi
    have hlen : retryDelays.length = 11 := by rfl
    have hmin : min (retryDelays.length - 1) i = 10 := by
      rw [hlen]
      exact Nat.min_eq_left (by omega)
    rw [delayFor, hmin]
    rfl
  · intro poll clock start fuel hnm hm hc
    have hskip := mergeWhenPossible_skip poll clock start 3 (fuel + 1) 0 0
      (fun j hj => by simp only [Nat.zero_add]; exact Or.inl (hnm j hj))
      (fun j hj => by simp only [Nat.zero_add]; exact hc j hj)
    have harith : fuel + 1 + 3 = fuel + 4 := by omega
    rw [harith] at hskip
    rw [hskip]
    have hsum : (0 : Nat) + sumDelays 0 3 = 1000 + 1000 + 1000 := by
      simp [sumDelays, delayFor, retryDelays]
    simp only [Nat.zero_add] at hsum ⊢
    rw [hsum]
    exact mergeWhenPossible_merged poll clock start fuel 3 (1000 + 1000 + 1000) hm

/-- Witness for C4 at a concrete trace: not mergeable for polls 0–2,
mergeable at poll 3, clock fixed at the start. -/
theorem claim_C4_witness :
    mergeWhenPossible (fun i => if i < 3 then .notMergeable else .mergeableMerged)
      (fun _ => 0) 0 4 0 0 = some (.ok (.prMerged, 3000)) := by
  have h := claim_C4_retry_schedule.2.2
    (fun i => if i < 3 then .notMergeable else .mergeableMerged) (fun _ => 0) 0 0
    (fun j hj => by simp [hj]) (by norm_num) (fun j _ => by simp [timeoutMs])
  simpa using h

/-- Claim C5: a merge attempt failing with a revision conflict (HTTP 409)
terminates the loop immediately with `PRHeadChanged` — no further retries,
no further delay — whereas a "not yet mergeable" poll and any other merge
failure are retryable: the loop sleeps the scheduled delay and continues
with the next attempt. -/
theorem claim_C5_conflict_terminal :
    (∀ (poll : Nat → PollStep) (clock : Nat → Nat) (start fuel i slept : Nat),
      poll i = .mergeableConflict →
      mergeWhenPossible poll clock start (fuel + 1) i slept =
        some (.ok (.prHeadChanged, slept))) ∧
    (∀ (poll : Nat → PollStep) (clock : Nat → Nat) (start fuel i slept : Nat),
      (poll i = .notMergeable ∨ poll i = .mergeableOtherError) →
      clock i - start < timeoutMs →
      mergeWhenPossible poll clock start (fuel + 1) i slept =
        mergeWhenPossible poll clock start fuel (i + 1) (slept + delayFor i)) := by
  constructor
  · intro poll clock start fuel i slept h
    simp [mergeWhenPossible, h]
  · exact fun poll clock start fuel i slept hp hc =>
      mergeWhenPossible_step_continue poll clock start fuel i slept hp hc

/-- Witness for C5: a conflict at the very first attempt ends the run with
`PRHeadChanged` even though later polls would merge; a retryable failure
continues. -/
theorem claim_C5_witness :
    mergeWhenPossible (fun _ => .mergeableConflict) (fun _ => 0) 0 7 0 0 =
      some (.ok (.prHeadChanged, 0)) ∧
    mergeWhenPossible (fun i => if i = 0 then .mergeableOtherError else .mergeableMerged)
      (fun _ => 0) 0 2 0 0 =
      mergeWhenPossible (fun i => if i = 0 then .mergeableOtherError else .mergeableMerged)
        (fun _ => 0) 0 1 1 (0 + delayFor 0) :=
  ⟨claim_C5_conflict_terminal.1 (fun _ => .mergeableConflict) (fun _ => 0) 0 6 0 0 rfl,
   claim_C5_conflict_terminal.2
     (fun i => if i = 0 then .mergeableOtherError else .mergeableMerged)
     (fun _ => 0) 0 1 0 0 (Or.inr rfl) (by simp [timeoutMs])⟩

/-- Claim C6: when no terminal outcome (`Merged`, `PRNotOpen`,
`PRHeadChanged`) is reached before the six-hour deadline, the loop throws
the fatal `Timed out` error — an exception distinct from every returned
result — and the deadline is checked once per iteration after the attempt,
not preemptively: a terminal poll outcome still wins even when the deadline
has already passed. -/
theorem claim_C6_deadline :
    (∀ (poll : Nat → PollStep) (clock : Nat → Nat) (start n fuel : Nat),
      (∀ j, j ≤ n → (poll j = .notMergeable ∨ poll j = .mergeableOtherError)) →
      (∀ j, j < n → clock j - start < timeoutMs) →
      timeoutMs ≤ clock n - start →
      mergeWhenPossible poll clock start (fuel + (n + 1)) 0 0 =
        some (.error .timedOut)) ∧
    (∀ (o : MergeOutcome) (s : Nat), (Except.error .timedOut :
      Except Thrown (MergeOutcome × Nat)) ≠ .ok (o, s)) ∧
    (∀ (poll : Nat → PollStep) (clock : Nat → Nat) (start fuel i slept : Nat),
      timeoutMs ≤ clock i - start →
      poll i = .notOpen →
      mergeWhenPossible poll clock start (fuel + 1) i slept =
        some (.ok (.prNotOpen, slept))) := by
  refine ⟨?_, fun o s => by simp, ?_⟩
  · intro poll clock start n fuel hp hc hd
    have hskip := mergeWhenPossible_skip poll clock start n (fuel + 1) 0 0
      (fun j hj => by simp only [Nat.zero_add]; exact hp j (Nat.le_of_lt hj))
      (fun j hj => by simp only [Nat.zero_add]; exact hc j hj)
    have harith : fuel + 1 + n = fuel + (n + 1) := by omega
    rw [harith] at hskip
    rw [hskip]
    simp only [Nat.zero_add]
    exact mergeWhenPossible_timeout_step poll clock start fuel n _
      (hp n (Nat.le_refl n)) (by simpa using hd)
  · intro poll clock start fuel i slept _ hp
    simp [mergeWhenPossible, hp]

/-- Witness for C6: a PR that is never mergeable times out as soon as the
clock passes the deadline (here immediately), and a closed PR at a
past-deadline iteration still reports `PRNotOpen`. -/
theorem claim_C6_witness :
    mergeWhenPossible (fun _ => .notMergeable) (fun _ => timeoutMs) 0 1 0 0 =
      some (.error .timedOut) ∧
    mergeWhenPossible (fun _ => .notOpen) (fun _ => timeoutMs) 0 1 0 0 =
      some (.ok (.prNotOpen, 0)) :=
  ⟨claim_C6_deadline.1 (fun _ => .notMergeable) (fun _ => timeoutMs) 0 0 0
      (fun j _ => Or.inl rfl) (fun j hj => absurd hj (Nat.not_lt_zero j))
      (by simp),
   claim_C6_deadline.2.2 (fun _ => .notOpen) (fun _ => timeoutMs) 0 0 0 0
      (by simp) rfl⟩

/-- Claim C8: in deferred auto-merge mode on an accepted PR, a repository
that does not allow auto merge is a fatal error; otherwise registration is
attempted guarded by the current head revision and on success the run ends
with `AutoMergeEnabled`; on registration failure exactly one direct merge
attempt guarded by the same head revision is made, and the run ends with
that attempt's outcome (`PRMerged` on success, a propagated exception on
failure). -/
theorem claim_C8_enable_auto_merge :
    (∀ (e f : Bool) (sha : String),
      enableAutoMerge false e f sha = (.error .autoMergeNotAllowed, ⟨none, none⟩)) ∧
    (∀ (f : Bool) (sha : String),
      enableAutoMerge true true f sha = (.ok .autoMergeEnabled, ⟨some sha, none⟩)) ∧
    (∀ sha : String,
      enableAutoMerge true false true sha = (.ok .prMerged, ⟨some sha, some sha⟩)) ∧
    (∀ sha : String,
      enableAutoMerge true false false sha = (.error .mergeFailed, ⟨some sha, some sha⟩)) ∧
    (∀ (cfg : RunConfig) (input : PRInput) (env : MergeEnv),
      cfg.merge = true → cfg.autoMerge = true →
      (runEval cfg input).result = .ok .accepted →
      (runModel cfg input env).1 =
        some ((enableAutoMerge env.repoAutoMergeAllowed env.enableSucceeds
          env.fallbackMergeSucceeds input.headSha).1.map (fun o =>
            match o with
            | .autoMergeEnabled => Result.autoMergeEnabled
            | .prMerged => Result.prMerged))) := by
  refine ⟨fun e f sha => rfl, fun f sha => rfl, fun sha => rfl, fun sha => rfl, ?_⟩
  intro cfg input env hm ha hr
  simp [runModel, hr, hm, ha]

/-- Witness for C8 at a concrete accepted run (empty diff, allowed actor)
whose auto-merge registration succeeds. -/
theorem claim_C8_witness :
    (runModel
      ⟨["dependabot[bot]"], [("devDependencies", "patch")], false, [""], none, true, true⟩
      ⟨"pull_request", "dependabot[bot]", [⟨"package.json", "modified"⟩],
        .obj [], .obj [], none, none, "headsha1"⟩
      ⟨fun _ => .notOpen, fun _ => 0, 0, 0, true, true, false⟩).1 =
      some (.ok .autoMergeEnabled) := by
  have h := claim_C8_enable_auto_merge.2.2.2.2
    ⟨["dependabot[bot]"], [("devDependencies", "patch")], false, [""], none, true, true⟩
    ⟨"pull_request", "dependabot[bot]", [⟨"package.json", "modified"⟩],
      .obj [], .obj [], none, none, "headsha1"⟩
    ⟨fun _ => .notOpen, fun _ => 0, 0, 0, true, true, false⟩
    rfl rfl (by rfl)
  rw [h]
  rfl

/-! ## Lemmas for the `allowed-update-types` parse -/

theorem splitCh_ne_nil (sep : Char) (cs : List Char) : splitCh sep cs ≠ [] := by
  induction cs with
  | nil => simp [splitCh]
  | cons c rest ih =>
    by_cases h : c = sep
    · simp [splitCh, h]
    · simp only [splitCh, if_neg h]
      cases hrest : splitCh sep rest with
      | nil => simp
      | cons g gs => simp

theorem splitCh_two_iff (sep : Char) (cs : List Char) :
    2 ≤ (splitCh sep cs).length ↔ sep ∈ cs := by
  induction cs with
  | nil => simp [splitCh]
  | cons c rest ih =>
    by_cases h : c = sep
    · subst h
      have hne := splitCh_ne_nil c rest
      have h1 : 0 < (splitCh c rest).length := List.length_pos.mpr hne
      have hrw : splitCh c (c :: rest) = [] :: splitCh c rest := by
        simp [splitCh]
      rw [hrw]
      simp only [List.length_cons, List.mem_cons]
      constructor
      · intro _
        exact Or.inl (by trivial)
      · intro _
        omega
    · have hrw : splitCh sep (c :: rest) =
        (match splitCh sep rest with
        | g :: gs => (c :: g) :: gs
        | [] => [[c]]) := by
        simp [splitCh, h]
      cases hrest : splitCh sep rest with
      | nil => exact absurd hrest (splitCh_ne_nil sep rest)
      | cons g gs =>
        rw [hrest] at hrw
        rw [hrw]
        rw [hrest] at ih
        simp only [List.length_cons] at ih ⊢
        rw [List.mem_cons]
        constructor
        · intro hl
          exact Or.inr (ih.mp hl)
        · intro hm
          rcases hm with hm | hm
          · exact absurd hm.symm h
          · exact ih.mpr hm

theorem mem_of_dropWhile_mem {p : Char → Bool} {c : Char} :
    ∀ {cs : List Char}, c ∈ cs.dropWhile p → c ∈ cs := by
  intro cs
  induction cs with
  | nil => simp
  | cons x rest ih =>
    intro h
    by_cases hx : p x
    · rw [List.dropWhile_cons_of_pos hx] at h
      exact List.mem_cons_of_mem x (ih h)
    · rwa [List.dropWhile_cons_of_neg hx] at h

theorem mem_dropWhile_of_mem {p : Char → Bool} {c : Char} (hc : p c = false) :
    ∀ {cs : List Char}, c ∈ cs → c ∈ cs.dropWhile p := by
  intro cs
  induction cs with
  | nil => intro h; exact absurd h (List.not_mem_nil c)
  | cons x rest ih =>
    intro h
    by_cases hx : p x
    · rw [List.dropWhile_cons_of_pos hx]
      rcases List.mem_cons.mp h with rfl | h
      · rw [hc] at hx; exact absurd hx (by simp)
      · exact ih h
    · rw [List.dropWhile_cons_of_neg hx]
      exact h

theorem mem_jsTrimL_iff (c : Char) (hc : isWsCh c = false) (cs : List Char) :
    c ∈ jsTrimL cs ↔ c ∈ cs := by
  unfold jsTrimL
  constructor
  · intro h
    have h1 : c ∈ (cs.dropWhile isWsCh).reverse.dropWhile isWsCh := by simpa using h
    have h2 : c ∈ cs.dropWhile isWsCh := by
      simpa using mem_of_dropWhile_mem h1
    exact mem_of_dropWhile_mem h2
  · intro h
    have h1 : c ∈ cs.dropWhile isWsCh := mem_dropWhile_of_mem hc h
    have h2 : c ∈ (cs.dropWhile isWsCh).reverse := by simpa using h1
    have h3 : c ∈ (cs.dropWhile isWsCh).reverse.dropWhile isWsCh :=
      mem_dropWhile_of_mem hc h2
    simpa using h3

theorem splitColonLimit2_length_two_iff (g : List Char) :
    (splitColonLimit2 g).length = 2 ↔ ':' ∈ g := by
  unfold splitColonLimit2
  rw [List.length_map, List.length_take]
  have h2 := splitCh_two_iff ':' (jsTrimL g)
  have hmem := mem_jsTrimL_iff ':' (by decide) g
  constructor
  · intro h
    exact hmem.mp (h2.mp (by omega))
  · intro h
    have := h2.mpr (hmem.mpr h)
    omega

theorem parseUpdateTypeGroups_ok_iff (gs : List (List Char)) :
    (∃ l, parseUpdateTypeGroups gs = .ok l) ↔
      ∀ g ∈ gs, (splitColonLimit2 g).length = 2 := by
  induction gs with
  | nil => simp [parseUpdateTypeGroups]
  | cons g rest ih =>
    simp only [parseUpdateTypeGroups]
    cases hsp : splitColonLimit2 g with
    | nil =>
      simp only [List.mem_cons]
      constructor
      · rintro ⟨l, hl⟩; cases hl
      · intro h
        have := h g (Or.inl rfl)
        rw [hsp] at this
        simp at this
    | cons a tl =>
      cases tl with
      | nil =>
        simp only [List.mem_cons]
        constructor
        · rintro ⟨l, hl⟩; cases hl
        · intro h
          have := h g (Or.inl rfl)
          rw [hsp] at this
          simp at this
      | cons b tl2 =>
        cases tl2 with
        | nil =>
          cases hrest : parseUpdateTypeGroups rest with
          | ok l =>
            simp only [List.mem_cons]
            constructor
            · intro _ g' hg'
              rcases hg' with rfl | hg'
              · rw [hsp]
                simp
              · exact (ih.mp ⟨l, hrest⟩) g' hg'
            · intro _
              exact ⟨_, rfl⟩
          | error e =>
            simp only [List.mem_cons]
            constructor
            · rintro ⟨l, hl⟩; cases hl
            · intro h
              have := ih.mpr (fun g' hg' => h g' (Or.inr hg'))
              rw [hrest] at this
              rcases this with ⟨l, hl⟩
              cases hl
        | cons c tl3 =>
          exfalso
          have : (splitColonLimit2 g).length ≤ 2 := by
            unfold splitColonLimit2
            rw [List.length_map, List.length_take]
            omega
          rw [hsp] at this
          simp at this

theorem parseUpdateTypeGroups_error (gs : List (List Char)) (e : String)
    (h : parseUpdateTypeGroups gs = .error e) : e = "allowed-update-types invalid" := by
  induction gs with
  | nil => simp [parseUpdateTypeGroups] at h
  | cons g rest ih =>
    rw [parseUpdateTypeGroups] at h
    cases hsp : splitColonLimit2 g with
    | nil =>
      rw [hsp] at h
      injection h with h2
      exact h2.symm
    | cons a tl =>
      cases tl with
      | nil =>
        rw [hsp] at h
        injection h with h2
        exact h2.symm
      | cons b tl2 =>
        cases tl2 with
        | nil =>
          rw [hsp] at h
          cases hrest : parseUpdateTypeGroups rest with
          | ok l =>
            rw [hrest] at h
            cases h
          | error e2 =>
            rw [hrest] at h
            injection h with h2
            subst h2
            exact ih hrest
        | cons c tl3 =>
          rw [hsp] at h
          injection h with h2
          exact h2.symm

/-- Claim C10: parsing `allowed-update-types` throws the fatal
`allowed-update-types invalid` error exactly when some non-empty trimmed
comma-separated group has no `:` separator; a well-formed
`category:bumpType` entry with an unrecognised bump-type name parses
fine, and inside `validVersionChange` an unrecognised bump type is
filtered out, so it can never make any version change allowed. -/
theorem claim_C10_update_types_config :
    (∀ input : String,
      parseAllowedUpdateTypes input = .error "allowed-update-types invalid" ↔
        ∃ g ∈ updateTypeGroups input, ':' ∉ g) ∧
    (∀ (input : String) (e : String),
      parseAllowedUpdateTypes input = .error e → e = "allowed-update-types invalid") ∧
    (∀ t : String, t ∉ validBumpTypes →
      ∀ (o n : String) (l1 l2 : List String),
        validVersionChange o n (l1 ++ t :: l2) = validVersionChange o n (l1 ++ l2)) := by
  refine ⟨?_, ?_, ?_⟩
  · intro input
    constructor
    · intro h
      by_contra hno
      push_neg at hno
      have hall : ∀ g ∈ updateTypeGroups input, (splitColonLimit2 g).length = 2 :=
        fun g hg => (splitColonLimit2_length_two_iff g).mpr (hno g hg)
      rcases (parseUpdateTypeGroups_ok_iff (updateTypeGroups input)).mpr hall with ⟨l, hl⟩
      rw [parseAllowedUpdateTypes] at h
      rw [hl] at h
      cases h
    · rintro ⟨g, hg, hng⟩
      rw [parseAllowedUpdateTypes]
      cases hres : parseUpdateTypeGroups (updateTypeGroups input) with
      | ok l =>
        exfalso
        have := (parseUpdateTypeGroups_ok_iff (updateTypeGroups input)).mp ⟨l, hres⟩ g hg
        exact hng ((splitColonLimit2_length_two_iff g).mp this)
      | error e =>
        rw [parseUpdateTypeGroups_error _ e hres]
  · intro input e h
    exact parseUpdateTypeGroups_error _ e h
  · intro t ht o n l1 l2
    have hfilter : ∀ l1 l2 : List String,
        (l1 ++ t :: l2).filter (fun x => validBumpTypes.contains x) =
          (l1 ++ l2).filter (fun x => validBumpTypes.contains x) := by
      intro l1 l2
      have hnt : validBumpTypes.contains t = false := by
        cases hc : validBumpTypes.contains t
        · rfl
        · exact absurd (List.mem_of_elem_eq_true hc) ht
      simp [List.filter_append, List.filter_cons, hnt, ht]
    unfold validVersionChange
    cases semverRegexCapture o with
    | none => rfl
    | some p1 =>
      cases semverRegexCapture n with
      | none => rfl
      | some p2 =>
        by_cases hp : p1 ≠ p2
        · simp [hp]
        · simp only [hp, if_false]
          cases parseSemver (sliceFrom o p1.length) with
          | none => rfl
          | some vo =>
            cases parseSemver (sliceFrom n p2.length) with
            | none => rfl
            | some vn =>
              by_cases hg : semverGte vo vn
              · simp [hg]
              · simp only [hg, if_false]
                cases semverDiff vo vn with
                | none => rfl
                | some d => rw [hfilter l1 l2]

/-- Witness for C10: `devDependencies:bogus` parses, an entry without `:`
throws, and the unrecognised bump type `bogus` never changes a decision. -/
theorem claim_C10_witness :
    parseAllowedUpdateTypes "devDependencies" = .error "allowed-update-types invalid" ∧
    parseAllowedUpdateTypes "devDependencies:bogus" =
      .ok [("devDependencies", "bogus")] ∧
    validVersionChange "0.0.1" "0.0.2" (["bogus"] ++ ["patch"]) =
      validVersionChange "0.0.1" "0.0.2" ([] ++ ["patch"]) :=
  ⟨(claim_C10_update_types_config.1 "devDependencies").mpr
      ⟨"devDependencies".data, by decide, by decide⟩,
   by rfl,
   claim_C10_update_types_config.2.2 "bogus" (by decide) "0.0.1" "0.0.2" [] ["patch"]⟩

/-! ## Antisymmetry of the semver comparison -/

theorem cmpNat_flip (a b : Nat) : cmpNat b a = -cmpNat a b := by
  unfold cmpNat
  split_ifs <;> omega

theorem cmpStr_flip (a b : String) : cmpStr b a = -cmpStr a b := by
  unfold cmpStr
  rcases lt_trichotomy a b with h | h | h
  · rw [if_neg (Ne.symm (ne_of_lt h)), if_neg (lt_asymm h), if_neg (ne_of_lt h), if_pos h]
    decide
  · subst h
    simp
  · rw [if_neg (ne_of_lt h), if_pos h, if_neg (Ne.symm (ne_of_lt h)), if_neg (lt_asymm h)]
    try decide

theorem compareIdentifiers_flip (x y : PreId) :
    compareIdentifiers y x = -compareIdentifiers x y := by
  cases x with
  | num a =>
    cases y with
    | num b =>
      simp only [compareIdentifiers]
      exact cmpNat_flip a b
    | str b =>
      simp only [compareIdentifiers]
      by_cases hb : b.data.all isDigitCh = true
      · rw [if_pos hb, if_pos hb]
        exact cmpNat_flip a (digitsVal b.data)
      · rw [if_neg hb, if_neg hb]
        try decide
  | str a =>
    cases y with
    | num b =>
      simp only [compareIdentifiers]
      by_cases ha : a.data.all isDigitCh = true
      · rw [if_pos ha, if_pos ha]
        exact cmpNat_flip (digitsVal a.data) b
      · rw [if_neg ha, if_neg ha]
        try decide
    | str b =>
      simp only [compareIdentifiers]
      rcases Bool.eq_false_or_eq_true (a.data.all isDigitCh) with ha | ha <;>
        rcases Bool.eq_false_or_eq_true (b.data.all isDigitCh) with hb | hb <;>
        simp only [ha, hb, Bool.and_true, Bool.and_false, Bool.true_and, Bool.false_and,
          if_true, if_false, Bool.false_eq_true, Bool.true_eq_false]
      all_goals first
        | decide
        | exact cmpStr_flip a b
        | exact cmpNat_flip (digitsVal a.data) (digitsVal b.data)

theorem comparePreIds_flip (xs : List PreId) :
    ∀ ys, comparePreIds ys xs = -comparePreIds xs ys := by
  induction xs with
  | nil =>
    intro ys
    cases ys <;> simp [comparePreIds]
  | cons x xs ih =>
    intro ys
    cases ys with
    | nil => simp [comparePreIds]
    | cons y ys =>
      by_cases h : x = y
      · subst h
        simp only [comparePreIds, if_pos rfl]
        exact ih ys
      · simp only [comparePreIds, if_neg h, if_neg (Ne.symm h)]
        exact compareIdentifiers_flip x y

theorem comparePre_flip (a b : SemVer) : comparePre b a = -comparePre a b := by
  unfold comparePre
  rcases Bool.eq_false_or_eq_true a.prerelease.isEmpty with ha | ha <;>
    rcases Bool.eq_false_or_eq_true b.prerelease.isEmpty with hb | hb <;>
    simp only [ha, hb, Bool.not_true, Bool.not_false, Bool.true_and, Bool.false_and,
      Bool.and_true, Bool.and_false, if_true, if_false, Bool.false_eq_true, Bool.true_eq_false]
  all_goals first
    | decide
    | exact comparePreIds_flip a.prerelease b.prerelease

theorem compareMain_flip (a b : SemVer) : compareMain b a = -compareMain a b := by
  unfold compareMain
  rw [cmpNat_flip a.major b.major, cmpNat_flip a.minor b.minor, cmpNat_flip a.patch b.patch]
  generalize cmpNat a.major b.major = x
  generalize cmpNat a.minor b.minor = y
  generalize cmpNat a.patch b.patch = z
  by_cases h1 : x = 0 <;> by_cases h2 : y = 0 <;> simp [h1, h2, neg_eq_zero]

theorem compareSemVer_flip (a b : SemVer) : compareSemVer b a = -compareSemVer a b := by
  unfold compareSemVer
  rw [compareMain_flip a b, comparePre_flip a b]
  generalize compareMain a b = c
  generalize comparePre a b = d
  by_cases h : c = 0 <;> simp [h, neg_eq_zero]

/-! ## The classifier claims -/

theorem classify_impossible_of_regex_fail {o n : String}
    (h : semverRegexCapture o = none ∨ semverRegexCapture n = none) :
    classify o n = some .impossible := by
  unfold classify
  cases hco : semverRegexCapture o with
  | none => rfl
  | some p1 =>
    cases hcn : semverRegexCapture n with
    | none => rfl
    | some p2 =>
      rcases h with h | h
      · rw [hco] at h; cases h
      · rw [hcn] at h; cases h

theorem classify_impossible_of_pfx_differ {o n p1 p2 : String}
    (h1 : semverRegexCapture o = some p1) (h2 : semverRegexCapture n = some p2)
    (hne : p1 ≠ p2) : classify o n = some .impossible := by
  unfold classify
  cases hco : semverRegexCapture o with
  | none => rfl
  | some q1 =>
    rw [hco] at h1
    injection h1 with hq1
    subst hq1
    cases hcn : semverRegexCapture n with
    | none => rfl
    | some q2 =>
      rw [hcn] at h2
      injection h2 with hq2
      subst hq2
      dsimp only
      rw [if_pos hne]

theorem classify_impossible_of_nonincreasing {o n p1 p2 : String} {vo vn : SemVer}
    (h1 : semverRegexCapture o = some p1) (h2 : semverRegexCapture n = some p2)
    (h3 : parseSemver (sliceFrom o p1.length) = some vo)
    (h4 : parseSemver (sliceFrom n p2.length) = some vn)
    (h5 : compareSemVer vn vo ≤ 0) :
    classify o n = some .impossible := by
  have hge : semverGte vo vn = true := by
    unfold semverGte
    have hflip := compareSemVer_flip vn vo
    simp only [decide_eq_true_eq]
    omega
  unfold classify
  cases hco : semverRegexCapture o with
  | none => rfl
  | some q1 =>
    rw [hco] at h1
    injection h1 with hq1
    subst hq1
    cases hcn : semverRegexCapture n with
    | none => rfl
    | some q2 =>
      rw [hcn] at h2
      injection h2 with hq2
      subst hq2
      by_cases hp : q1 ≠ q2
      · dsimp only
        rw [if_pos hp]
      · dsimp only
        rw [if_neg hp]
        push_neg at hp
        subst hp
        cases hpo : parseSemver (sliceFrom o q1.length) with
        | none => rw [hpo] at h3; cases h3
        | some wo =>
          rw [hpo] at h3
          injection h3 with hwo
          subst hwo
          cases hpn : parseSemver (sliceFrom n q1.length) with
          | none => rw [hpn] at h4; cases h4
          | some wn =>
            rw [hpn] at h4
            injection h4 with hwn
            subst hwn
            dsimp only
            rw [if_pos hge]

theorem validVersionChange_false_of_impossible {o n : String}
    (h : classify o n = some .impossible) (types : List String) :
    validVersionChange o n types = some false := by
  rw [validVersionChange_eq_classify, h]
  rfl

/-- Claim C1: the version-change classification is `impossible` — the change
is rejected by `validVersionChange` regardless of the configured
allowed-bump set — whenever either version string fails the
`^([~^]?)\d+\.\d+\.\d+(-.+)?$` pattern, the captured range-prefix
characters differ, or the prefix-stripped new version is not strictly
greater than the prefix-stripped old one under semantic-version ordering;
and on the spec's examples `classify` yields `impossible`, `patch`,
`minor` and `major` respectively. -/
theorem claim_C1_classifier :
    (∀ o n : String, (semverRegexCapture o = none ∨ semverRegexCapture n = none) →
      classify o n = some .impossible ∧
        ∀ types, validVersionChange o n types = some false) ∧
    (∀ (o n p1 p2 : String), semverRegexCapture o = some p1 →
      semverRegexCapture n = some p2 → p1 ≠ p2 →
      classify o n = some .impossible ∧
        ∀ types, validVersionChange o n types = some false) ∧
    (∀ (o n p1 p2 : String) (vo vn : SemVer), semverRegexCapture o = some p1 →
      semverRegexCapture n = some p2 →
      parseSemver (sliceFrom o p1.length) = some vo →
      parseSemver (sliceFrom n p2.length) = some vn →
      compareSemVer vn vo ≤ 0 →
      classify o n = some .impossible ∧
        ∀ types, validVersionChange o n types = some false) ∧
    classify "~0.0.1" "0.0.2" = some .impossible ∧
    classify "0.0.1" "0.0.2" = some (.bump .patch) ∧
    classify "0.0.1" "0.1.0" = some (.bump .minor) ∧
    classify "0.0.1" "1.0.0" = some (.bump .major) := by
  refine ⟨?_, ?_, ?_, by rfl, by rfl, by rfl, by rfl⟩
  · intro o n h
    have hc := classify_impossible_of_regex_fail h
    exact ⟨hc, validVersionChange_false_of_impossible hc⟩
  · intro o n p1 p2 h1 h2 hne
    have hc := classify_impossible_of_pfx_differ h1 h2 hne
    exact ⟨hc, validVersionChange_false_of_impossible hc⟩
  · intro o n p1 p2 vo vn h1 h2 h3 h4 h5
    have hc := classify_impossible_of_nonincreasing h1 h2 h3 h4 h5
    exact ⟨hc, validVersionChange_false_of_impossible hc⟩

/-- Witness for C1: a malformed string, a prefix change, and a
non-increasing change, each rejected at every configuration. -/
theorem claim_C1_witness :
    (classify "nope" "1.0.0" = some .impossible ∧
      validVersionChange "nope" "1.0.0" ["major"] = some false) ∧
    (classify "~1.0.0" "1.0.1" = some .impossible ∧
      validVersionChange "~1.0.0" "1.0.1" ["patch"] = some false) ∧
    (classify "0.0.2" "0.0.1" = some .impossible ∧
      validVersionChange "0.0.2" "0.0.1" ["patch"] = some false) :=
  ⟨⟨(claim_C1_classifier.1 "nope" "1.0.0" (Or.inl (by rfl))).1,
    (claim_C1_classifier.1 "nope" "1.0.0" (Or.inl (by rfl))).2 ["major"]⟩,
   ⟨(claim_C1_classifier.2.1 "~1.0.0" "1.0.1" "~" "" (by rfl) (by rfl) (by decide)).1,
    (claim_C1_classifier.2.1 "~1.0.0" "1.0.1" "~" "" (by rfl) (by rfl) (by decide)).2 ["patch"]⟩,
   ⟨(claim_C1_classifier.2.2.1 "0.0.2" "0.0.1" "" "" ⟨0, 0, 2, [], []⟩ ⟨0, 0, 1, [], []⟩
      (by rfl) (by rfl) (by rfl) (by rfl) (by decide)).1,
    (claim_C1_classifier.2.2.1 "0.0.2" "0.0.1" "" "" ⟨0, 0, 2, [], []⟩ ⟨0, 0, 1, [], []⟩
      (by rfl) (by rfl) (by rfl) (by rfl) (by decide)).2 ["patch"]⟩⟩

/-! ## Auto-merge disabling on rejection -/

theorem maybeDisableAutoMerge_iff (a : Bool) (r u : Option String) :
    maybeDisableAutoMerge a r u = true ↔ (a = true ∧ r = some (ownLogin u)) := by
  unfold maybeDisableAutoMerge
  cases a <;> cases r <;> simp

theorem runEval_disabled_reject (cfg : RunConfig) (input : PRInput)
    (h : (runEval cfg input).result = .ok .fileNotAllowed ∨
         (runEval cfg input).result = .ok .unexpectedChanges ∨
         (runEval cfg input).result = .ok .unexpectedPropertyChange ∨
         (runEval cfg input).result = .ok .versionChangeNotAllowed) :
    (runEval cfg input).disabledAutoMerge =
      maybeDisableAutoMerge cfg.autoMerge input.autoMergeRequest
        input.maybeAuthenticatedUser := by
  unfold runEval at h ⊢
  split_ifs at h ⊢ <;> try rfl
  · simp at h
  · simp at h
  all_goals
    cases hch : allowedChangeCheck cfg.allowedUpdateTypes cfg.packageAllowList
      cfg.packageBlockList input.packageJsonBase input.packageJsonPr
      (detailedDiff input.packageJsonBase input.packageJsonPr).updated with
    | error e =>
      rw [hch] at h
      simp at h
    | ok b =>
      cases b
      · rfl
      · rw [hch] at h
        simp at h

theorem runEval_disabled_other (cfg : RunConfig) (input : PRInput)
    (h : (runEval cfg input).result = .ok .unknownEvent ∨
         (runEval cfg input).result = .ok .actorNotAllowed ∨
         (runEval cfg input).result = .ok .accepted ∨
         (runEval cfg input).result = .error ()) :
    (runEval cfg input).disabledAutoMerge = false := by
  unfold runEval at h ⊢
  split_ifs at h ⊢ <;> try rfl
  all_goals try (simp at h; done)
  all_goals
    cases hch : allowedChangeCheck cfg.allowedUpdateTypes cfg.packageAllowList
      cfg.packageBlockList input.packageJsonBase input.packageJsonPr
      (detailedDiff input.packageJsonBase input.packageJsonPr).updated with
    | error e => rfl
    | ok b =>
      cases b
      · rw [hch] at h
        simp at h
      · rfl

/-- Counterexample to claim C7 as stated: the claim counts "actor not
allowed" among the policy rejections that disable a stale auto-merge
request by the same identity, but the `ActorNotAllowed` return of `run`
happens before any auto-merge handling: here an auto-merge request
enabled by this same actor identity (the `github-actions` fallback) exists
and a rejection is returned, yet no disable mutation is performed. -/
theorem claim_C7_counterexample :
    (runEval ⟨["dependabot[bot]"], [], false, [""], none, true, true⟩
      ⟨"pull_request", "mallory", [], .obj [], .obj [], some "github-actions",
        none, "sha"⟩).result = .ok .actorNotAllowed ∧
    maybeDisableAutoMerge true (some "github-actions") none = true ∧
    (runEval ⟨["dependabot[bot]"], [], false, [""], none, true, true⟩
      ⟨"pull_request", "mallory", [], .obj [], .obj [], some "github-actions",
        none, "sha"⟩).disabledAutoMerge = false :=
  ⟨by rfl, by rfl, by rfl⟩

/-- Claim C7 (amended): for the four in-evaluation policy rejections
(`FileNotAllowed`, `UnexpectedChanges`, `UnexpectedPropertyChange`,
`VersionChangeNotAllowed`), when deferred auto-merge mode is configured,
an existing auto-merge request is disabled before the reject result is
returned exactly when it was enabled by this same actor identity (the
authenticated user's login, falling back to `github-actions`); a request
enabled by a different identity is left untouched, and the
`ActorNotAllowed` and `UnknownEvent` rejections return without touching
auto-merge at all. -/
theorem claim_C7_disable_on_reject :
    (∀ (cfg : RunConfig) (input : PRInput),
      ((runEval cfg input).result = .ok .fileNotAllowed ∨
       (runEval cfg input).result = .ok .unexpectedChanges ∨
       (runEval cfg input).result = .ok .unexpectedPropertyChange ∨
       (runEval cfg input).result = .ok .versionChangeNotAllowed) →
      ((runEval cfg input).disabledAutoMerge = true ↔
        (cfg.autoMerge = true ∧
          input.autoMergeRequest = some (ownLogin input.maybeAuthenticatedUser)))) ∧
    (∀ (cfg : RunConfig) (input : PRInput),
      ((runEval cfg input).result = .ok .unknownEvent ∨
       (runEval cfg input).result = .ok .actorNotAllowed) →
      (runEval cfg input).disabledAutoMerge = false) := by
  constructor
  · intro cfg input h
    rw [runEval_disabled_reject cfg input h]
    exact maybeDisableAutoMerge_iff cfg.autoMerge input.autoMergeRequest
      input.maybeAuthenticatedUser
  · intro cfg input h
    refine runEval_disabled_other cfg input ?_
    rcases h with h | h
    · exact Or.inl h
    · exact Or.inr (Or.inl h)

/-- Witness for C7 (amended): a file-scope rejection with a stale request
by the own identity disables it; the same rejection with a request by a
different identity leaves it untouched. -/
theorem claim_C7_witness :
    (runEval ⟨["dependabot[bot]"], [], false, [""], none, true, true⟩
      ⟨"pull_request", "dependabot[bot]", [⟨"evil.sh", "added"⟩], .obj [], .obj [],
        some "tester", some "tester", "sha"⟩).disabledAutoMerge = true ∧
    (runEval ⟨["dependabot[bot]"], [], false, [""], none, true, true⟩
      ⟨"pull_request", "dependabot[bot]", [⟨"evil.sh", "added"⟩], .obj [], .obj [],
        some "someone-else", some "tester", "sha"⟩).disabledAutoMerge = false := by
  constructor
  · exact (claim_C7_disable_on_reject.1
      ⟨["dependabot[bot]"], [], false, [""], none, true, true⟩
      ⟨"pull_request", "dependabot[bot]", [⟨"evil.sh", "added"⟩], .obj [], .obj [],
        some "tester", some "tester", "sha"⟩ (Or.inl (by rfl))).mpr ⟨rfl, rfl⟩
  · have h := (claim_C7_disable_on_reject.1
      ⟨["dependabot[bot]"], [], false, [""], none, true, true⟩
      ⟨"pull_request", "dependabot[bot]", [⟨"evil.sh", "added"⟩], .obj [], .obj [],
        some "someone-else", some "tester", "sha"⟩ (Or.inl (by rfl)))
    cases hd : (runEval ⟨["dependabot[bot]"], [], false, [""], none, true, true⟩
      ⟨"pull_request", "dependabot[bot]", [⟨"evil.sh", "added"⟩], .obj [], .obj [],
        some "someone-else", some "tester", "sha"⟩).disabledAutoMerge
    · rfl
    · exfalso
      have := (h.mp hd).2
      simp [ownLogin] at this

/-! ## Identical manifests diff to nothing -/

/-- Structural induction over `Json`. -/
theorem Json.myInduction (P : Json → Prop)
    (hnull : P .null) (hundefVal : P .undefVal) (hbool : ∀ b, P (.bool b))
    (hnum : ∀ n, P (.num n)) (hstr : ∀ s, P (.str s))
    (harr : ∀ xs, (∀ x ∈ xs, P x) → P (.arr xs))
    (hobj : ∀ kvs, (∀ kv ∈ kvs, P (Prod.snd kv)) → P (.obj kvs)) : ∀ j, P j
  | .null => hnull
  | .undefVal => hundefVal
  | .bool b => hbool b
  | .num n => hnum n
  | .str s => hstr s
  | .arr xs => harr xs (fun x _ => Json.myInduction P hnull hundefVal hbool hnum hstr harr hobj x)
  | .obj kvs => hobj kvs (fun kv _ =>
      Json.myInduction P hnull hundefVal hbool hnum hstr harr hobj kv.2)
termination_by j => sizeOf j
decreasing_by
  all_goals
    first
      | (have hsz := List.sizeOf_lt_of_mem (by assumption : x ∈ xs)
         simp only [Json.arr.sizeOf_spec]
         omega)
      | (have h1 := List.sizeOf_lt_of_mem (by assumption : kv ∈ kvs)
         have h2 : sizeOf kv.2 < sizeOf kv := by
           obtain ⟨a, b⟩ := kv
           simp
         simp only [Json.obj.sizeOf_spec]
         omega)

/-- The shape `JSON.parse` output always has: no duplicate keys in an
object, no `undefined` value anywhere. -/
def jsonWF : Json → Prop
  | .null => True
  | .undefVal => False
  | .bool _ => True
  | .num _ => True
  | .str _ => True
  | .arr xs => ∀ x ∈ xs, jsonWF x
  | .obj kvs => (kvs.map (fun kv => kv.1)).Nodup ∧ ∀ kv ∈ kvs, jsonWF kv.2
termination_by j => sizeOf j
decreasing_by
  all_goals
    rename_i hmem
    first
      | (have hsz := List.sizeOf_lt_of_mem hmem
         simp only [Json.arr.sizeOf_spec]
         omega)
      | (have h1 := List.sizeOf_lt_of_mem hmem
         have h2 : sizeOf kv.2 < sizeOf kv := by
           obtain ⟨a, b⟩ := kv
           simp
         simp only [Json.obj.sizeOf_spec]
         omega)

theorem lookup_self_of_nodup {kvs : List (String × Json)}
    (hnd : (kvs.map (fun kv => kv.1)).Nodup) :
    ∀ {k : String} {v : Json}, (k, v) ∈ kvs → List.lookup k kvs = some v := by
  induction kvs with
  | nil => intro k v h; exact absurd h (List.not_mem_nil _)
  | cons hd tl ih =>
    intro k v h
    obtain ⟨k0, v0⟩ := hd
    simp only [List.map_cons, List.nodup_cons] at hnd
    rcases List.mem_cons.mp h with heq | hmem
    · injection heq with hk hv
      subst hk
      subst hv
      simp [List.lookup]
    · have hne : k ≠ k0 := by
        intro hcontra
        subst hcontra
        exact hnd.1 (List.mem_map.mpr ⟨(k, v), hmem, rfl⟩)
      have hbeq : (k == k0) = false := beq_eq_false_iff_ne.mpr hne
      simp only [List.lookup, hbeq]
      exact ih hnd.2 hmem

theorem lookup_arrEntries (xs : List Json) :
    ∀ (start j : Nat), j < xs.length →
      List.lookup (natRepr (start + j)) (arrEntries start xs) = xs.get? j := by
  induction xs with
  | nil => intro start j h; simp at h
  | cons x rest ih =>
    intro start j h
    cases j with
    | zero =>
      simp only [arrEntries, Nat.add_zero, List.lookup, beq_self_eq_true]
      rfl
    | succ j =>
      have hne : natRepr (start + (j + 1)) ≠ natRepr start := by
        intro hcontra
        have := natRepr_injective hcontra
        omega
      have hbeq : (natRepr (start + (j + 1)) == natRepr start) = false :=
        beq_eq_false_iff_ne.mpr hne
      simp only [arrEntries, List.lookup, hbeq]
      have := ih (start + 1) j (by simpa using h)
      rw [show start + 1 + j = start + (j + 1) by omega] at this
      rw [this]
      rfl

theorem addedGo_self (kvsf : List (String × Json))
    (hnd : (kvsf.map (fun kv => kv.1)).Nodup)
    (ihsub : ∀ kv ∈ kvsf, addedDiff kv.2 kv.2 = .obj []) :
    ∀ kvs : List (String × Json), (∀ kv ∈ kvs, kv ∈ kvsf) → addedGo kvsf kvs = [] := by
  intro kvs
  induction kvs with
  | nil => intro _; rfl
  | cons hd tl ih =>
    intro hsub
    obtain ⟨k, v⟩ := hd
    have hmem : (k, v) ∈ kvsf := hsub (k, v) (List.mem_cons_self _ _)
    have hlk := lookup_self_of_nodup hnd hmem
    have hd2 : addedDiff v v = .obj [] := ihsub (k, v) hmem
    simp only [addedGo, hlk, hd2, isObject, jsonEntries, List.isEmpty_nil, Bool.and_true,
      if_true]
    exact ih (fun kv hkv => hsub kv (List.mem_cons_of_mem _ hkv))

theorem addedGoArr_self (xsf : List Json)
    (ihsub : ∀ x ∈ xsf, addedDiff x x = .obj []) :
    ∀ (ys : List Json) (i : Nat), xsf.drop i = ys →
      addedGoArr (arrEntries 0 xsf) i ys = [] := by
  intro ys
  induction ys with
  | nil => intro i _; rfl
  | cons y ys ih =>
    intro i h
    have hget : xsf.get? i = some y := by
      have := List.get?_drop xsf i 0
      rw [h] at this
      simpa using this.symm
    have hmem : y ∈ xsf := List.get?_mem hget
    have hdrop : xsf.drop (i + 1) = ys := by
      have h1 : xsf.drop (i + 1) = (xsf.drop i).drop 1 := by
        rw [List.drop_drop]
      rw [h1, h]
      rfl
    have hlookup : List.lookup (natRepr i) (arrEntries 0 xsf) = some y := by
      have hlen : i < xsf.length := by
        by_contra hcon
        rw [List.get?_eq_none.mpr (Nat.le_of_not_lt hcon)] at hget
        cases hget
      have := lookup_arrEntries xsf 0 i hlen
      rw [Nat.zero_add] at this
      rw [this, hget]
    have hd2 : addedDiff y y = .obj [] := ihsub y hmem
    simp only [addedGoArr, hlookup, hd2, isObject, jsonEntries, List.isEmpty_nil,
      Bool.and_true, if_true]
    exact ih (i + 1) hdrop

theorem addedDiff_self : ∀ j : Json, jsonWF j → addedDiff j j = .obj [] := by
  intro j
  induction j using Json.myInduction with
  | hnull => intro _; rfl
  | hundefVal => intro hwf; simp [jsonWF] at hwf
  | hbool b => intro _; rfl
  | hnum n => intro _; rfl
  | hstr s => intro _; rfl
  | harr xs ih =>
    intro hwf
    rw [jsonWF] at hwf
    have hsub : ∀ x ∈ xs, addedDiff x x = .obj [] := fun x hx => ih x hx (hwf x hx)
    show addedDiff (.arr xs) (.arr xs) = .obj []
    simp only [addedDiff, isObject, if_true]
    rw [show jsonEntries (.arr xs) = arrEntries 0 xs from rfl]
    rw [addedGoArr_self xs hsub xs 0 rfl]
  | hobj kvs ih =>
    intro hwf
    rw [jsonWF] at hwf
    have hsub : ∀ kv ∈ kvs, addedDiff kv.2 kv.2 = .obj [] :=
      fun kv hkv => ih kv hkv (hwf.2 kv hkv)
    show addedDiff (.obj kvs) (.obj kvs) = .obj []
    simp only [addedDiff, isObject, if_true]
    rw [show jsonEntries (.obj kvs) = kvs from rfl]
    rw [addedGo_self kvs hwf.1 hsub kvs (fun kv hkv => hkv)]

theorem deletedGo_self (kvsf : List (String × Json))
    (hnd : (kvsf.map (fun kv => kv.1)).Nodup)
    (ihsub : ∀ kv ∈ kvsf, deletedDiff kv.2 kv.2 = .obj []) :
    ∀ kvs : List (String × Json), (∀ kv ∈ kvs, kv ∈ kvsf) → deletedGo kvsf kvs = [] := by
  intro kvs
  induction kvs with
  | nil => intro _; rfl
  | cons hd tl ih =>
    intro hsub
    obtain ⟨k, v⟩ := hd
    have hmem : (k, v) ∈ kvsf := hsub (k, v) (List.mem_cons_self _ _)
    have hlk := lookup_self_of_nodup hnd hmem
    have hd2 : deletedDiff v v = .obj [] := ihsub (k, v) hmem
    simp only [deletedGo, hlk, hd2, isObject, jsonEntries, List.isEmpty_nil, Bool.and_true,
      if_true]
    exact ih (fun kv hkv => hsub kv (List.mem_cons_of_mem _ hkv))

theorem deletedGoArr_self (xsf : List Json)
    (ihsub : ∀ x ∈ xsf, deletedDiff x x = .obj []) :
    ∀ (ys : List Json) (i : Nat), xsf.drop i = ys →
      deletedGoArr (arrEntries 0 xsf) i ys = [] := by
  intro ys
  induction ys with
  | nil => intro i _; rfl
  | cons y ys ih =>
    intro i h
    have hget : xsf.get? i = some y := by
      have := List.get?_drop xsf i 0
      rw [h] at this
      simpa using this.symm
    have hmem : y ∈ xsf := List.get?_mem hget
    have hdrop : xsf.drop (i + 1) = ys := by
      have h1 : xsf.drop (i + 1) = (xsf.drop i).drop 1 := by
        rw [List.drop_drop]
      rw [h1, h]
      rfl
    have hlookup : List.lookup (natRepr i) (arrEntries 0 xsf) = some y := by
      have hlen : i < xsf.length := by
        by_contra hcon
        rw [List.get?_eq_none.mpr (Nat.le_of_not_lt hcon)] at hget
        cases hget
      have := lookup_arrEntries xsf 0 i hlen
      rw [Nat.zero_add] at this
      rw [this, hget]
    have hd2 : deletedDiff y y = .obj [] := ihsub y hmem
    simp only [deletedGoArr, hlookup, hd2, isObject, jsonEntries, List.isEmpty_nil,
      Bool.and_true, if_true]
    exact ih (i + 1) hdrop

theorem deletedDiff_self : ∀ j : Json, jsonWF j → deletedDiff j j = .obj [] := by
  intro j
  induction j using Json.myInduction with
  | hnull => intro _; rfl
  | hundefVal => intro hwf; simp [jsonWF] at hwf
  | hbool b => intro _; rfl
  | hnum n => intro _; rfl
  | hstr s => intro _; rfl
  | harr xs ih =>
    intro hwf
    rw [jsonWF] at hwf
    have hsub : ∀ x ∈ xs, deletedDiff x x = .obj [] := fun x hx => ih x hx (hwf x hx)
    show deletedDiff (.arr xs) (.arr xs) = .obj []
    simp only [deletedDiff, isObject, if_true]
    rw [show jsonEntries (.arr xs) = arrEntries 0 xs from rfl]
    rw [deletedGoArr_self xs hsub xs 0 rfl]
  | hobj kvs ih =>
    intro hwf
    rw [jsonWF] at hwf
    have hsub : ∀ kv ∈ kvs, deletedDiff kv.2 kv.2 = .obj [] :=
      fun kv hkv => ih kv hkv (hwf.2 kv hkv)
    show deletedDiff (.obj kvs) (.obj kvs) = .obj []
    simp only [deletedDiff, isObject, if_true]
    rw [show jsonEntries (.obj kvs) = kvs from rfl]
    rw [deletedGo_self kvs hwf.1 hsub kvs (fun kv hkv => hkv)]

theorem updatedGo_self (kvsf : List (String × Json))
    (hnd : (kvsf.map (fun kv => kv.1)).Nodup)
    (ihsub : ∀ kv ∈ kvsf, updatedDiff kv.2 kv.2 = .obj []) :
    ∀ kvs : List (String × Json), (∀ kv ∈ kvs, kv ∈ kvsf) → updatedGo kvsf kvs = [] := by
  intro kvs
  induction kvs with
  | nil => intro _; rfl
  | cons hd tl ih =>
    intro hsub
    obtain ⟨k, v⟩ := hd
    have hmem : (k, v) ∈ kvsf := hsub (k, v) (List.mem_cons_self _ _)
    have hlk := lookup_self_of_nodup hnd hmem
    have hd2 : updatedDiff v v = .obj [] := ihsub (k, v) hmem
    simp only [updatedGo, hlk, hd2]
    rw [if_pos]
    · exact ih (fun kv hkv => hsub kv (List.mem_cons_of_mem _ hkv))
    · rw [Bool.or_not_self, Bool.and_true]
      rfl

theorem updatedGoArr_self (xsf : List Json)
    (ihsub : ∀ x ∈ xsf, updatedDiff x x = .obj []) :
    ∀ (ys : List Json) (i : Nat), xsf.drop i = ys →
      updatedGoArr (arrEntries 0 xsf) i ys = [] := by
  intro ys
  induction ys with
  | nil => intro i _; rfl
  | cons y ys ih =>
    intro i h
    have hget : xsf.get? i = some y := by
      have := List.get?_drop xsf i 0
      rw [h] at this
      simpa using this.symm
    have hmem : y ∈ xsf := List.get?_mem hget
    have hdrop : xsf.drop (i + 1) = ys := by
      have h1 : xsf.drop (i + 1) = (xsf.drop i).drop 1 := by
        rw [List.drop_drop]
      rw [h1, h]
      rfl
    have hlookup : List.lookup (natRepr i) (arrEntries 0 xsf) = some y := by
      have hlen : i < xsf.length := by
        by_contra hcon
        rw [List.get?_eq_none.mpr (Nat.le_of_not_lt hcon)] at hget
        cases hget
      have := lookup_arrEntries xsf 0 i hlen
      rw [Nat.zero_add] at this
      rw [this, hget]
    have hd2 : updatedDiff y y = .obj [] := ihsub y hmem
    simp only [updatedGoArr, hlookup, hd2]
    rw [if_pos]
    · exact ih (i + 1) hdrop
    · rw [Bool.or_not_self, Bool.and_true]
      rfl

theorem updatedDiff_self : ∀ j : Json, jsonWF j → updatedDiff j j = .obj [] := by
  intro j
  induction j using Json.myInduction with
  | hnull => intro _; rfl
  | hundefVal => intro hwf; simp [jsonWF] at hwf
  | hbool b => intro _; simp [updatedDiff, jsStrictEq]
  | hnum n => intro _; simp [updatedDiff, jsStrictEq]
  | hstr s => intro _; simp [updatedDiff, jsStrictEq]
  | harr xs ih =>
    intro hwf
    rw [jsonWF] at hwf
    have hsub : ∀ x ∈ xs, updatedDiff x x = .obj [] := fun x hx => ih x hx (hwf x hx)
    show updatedDiff (.arr xs) (.arr xs) = .obj []
    simp only [updatedDiff, isObject, if_true]
    rw [show jsonEntries (.arr xs) = arrEntries 0 xs from rfl]
    rw [updatedGoArr_self xs hsub xs 0 rfl]
  | hobj kvs ih =>
    intro hwf
    rw [jsonWF] at hwf
    have hsub : ∀ kv ∈ kvs, updatedDiff kv.2 kv.2 = .obj [] :=
      fun kv hkv => ih kv hkv (hwf.2 kv hkv)
    show updatedDiff (.obj kvs) (.obj kvs) = .obj []
    simp only [updatedDiff, isObject, if_true]
    rw [show jsonEntries (.obj kvs) = kvs from rfl]
    rw [updatedGo_self kvs hwf.1 hsub kvs (fun kv hkv => hkv)]

theorem detailedDiff_self (j : Json) (hwf : jsonWF j) :
    detailedDiff j j = ⟨.obj [], .obj [], .obj []⟩ := by
  unfold detailedDiff
  rw [addedDiff_self j hwf, deletedDiff_self j hwf, updatedDiff_self j hwf]

/-- Claim C9: when base and head `package.json` are structurally identical
(for example a PR touching only lockfiles), the diff has empty `added`,
`deleted` and `updated` parts, every per-key and per-dependency check is
vacuous, the evaluation accepts, and the `success` output is set — without
any version bump having been examined. -/
theorem claim_C9_identical_manifests :
    ∀ (cfg : RunConfig) (input : PRInput),
      jsonWF input.packageJsonBase →
      input.packageJsonPr = input.packageJsonBase →
      supportedEvents.contains input.eventName = true →
      cfg.allowedActors.contains input.actor = true →
      onlyAllowedFilesChanged input.files = true →
      detailedDiff input.packageJsonBase input.packageJsonPr =
        ⟨.obj [], .obj [], .obj []⟩ ∧
      (runEval cfg input).result = .ok .accepted ∧
      (runEval cfg input).setSuccess = true := by
  intro cfg input hwf hpr hev hactor hfiles
  have hdiff := detailedDiff_self input.packageJsonBase hwf
  have hre : runEval cfg input = ⟨.ok .accepted, false, true⟩ := by
    have hevm : input.eventName ∈ supportedEvents := by simpa using hev
    have hactorm : input.actor ∈ cfg.allowedActors := by simpa using hactor
    unfold runEval
    rw [hpr, hdiff]
    simp [hevm, hactorm, hfiles, allowedChangeCheck, jsonKeys, jsonEntries, jsEveryM,
      allowedPropsCheck]
  refine ⟨by rw [hpr]; exact hdiff, by rw [hre], by rw [hre]⟩

/-- Witness for C9: a lockfile-only PR with a concrete identical manifest
on both sides is accepted with the `success` output set. -/
theorem claim_C9_witness :
    detailedDiff
      (.obj [("name", .str "x"), ("dependencies", .obj [("mod1", .str "1.0.0")])])
      (.obj [("name", .str "x"), ("dependencies", .obj [("mod1", .str "1.0.0")])]) =
      ⟨.obj [], .obj [], .obj []⟩ ∧
    (runEval ⟨["dependabot[bot]"], [("dependencies", "patch")], true, [""], none, false, true⟩
      ⟨"pull_request", "dependabot[bot]",
        [⟨"package-lock.json", "modified"⟩],
        .obj [("name", .str "x"), ("dependencies", .obj [("mod1", .str "1.0.0")])],
        .obj [("name", .str "x"), ("dependencies", .obj [("mod1", .str "1.0.0")])],
        none, none, "sha"⟩).result = .ok .accepted := by
  have h := claim_C9_identical_manifests
    ⟨["dependabot[bot]"], [("dependencies", "patch")], true, [""], none, false, true⟩
    ⟨"pull_request", "dependabot[bot]",
      [⟨"package-lock.json", "modified"⟩],
      .obj [("name", .str "x"), ("dependencies", .obj [("mod1", .str "1.0.0")])],
      .obj [("name", .str "x"), ("dependencies", .obj [("mod1", .str "1.0.0")])],
      none, none, "sha"⟩
    (by simp [jsonWF])
    rfl rfl rfl rfl
  exact ⟨h.1, h.2.1⟩

/-! ## Stage ordering of the evaluation -/

theorem runEval_stage4 (cfg : RunConfig) (input : PRInput)
    (hev : supportedEvents.contains input.eventName = true)
    (hactor : cfg.allowedActors.contains input.actor = true)
    (hfiles : onlyAllowedFilesChanged input.files = true)
    (hadded : (jsonKeys (detailedDiff input.packageJsonBase
      input.packageJsonPr).added).isEmpty = true)
    (hdeleted : (jsonKeys (detailedDiff input.packageJsonBase
      input.packageJsonPr).deleted).isEmpty = true)
    (hprops : allowedPropsCheck (detailedDiff input.packageJsonBase
      input.packageJsonPr).updated = true) :
    runEval cfg input =
      match allowedChangeCheck cfg.allowedUpdateTypes cfg.packageAllowList
        cfg.packageBlockList input.packageJsonBase input.packageJsonPr
        (detailedDiff input.packageJsonBase input.packageJsonPr).updated with
      | .error e => ⟨.error e, false, false⟩
      | .ok false => ⟨.ok .versionChangeNotAllowed,
          maybeDisableAutoMerge cfg.autoMerge input.autoMergeRequest
            input.maybeAuthenticatedUser, false⟩
      | .ok true => ⟨.ok .accepted, false, true⟩ := by
  have hevm : input.eventName ∈ supportedEvents := by simpa using hev
  have hactm : input.actor ∈ cfg.allowedActors := by simpa using hactor
  unfold runEval
  simp [hevm, hactm, hfiles, hadded, hdeleted, hprops]

/-- Claim C2 (amended): the evaluation runs its checks in a strict order and
short-circuits on the first failure — (1) a changed file outside the
allow-set or not `modified` yields `FileNotAllowed` whatever the manifests
contain; (2) otherwise any added or deleted key yields `UnexpectedChanges`;
(3) otherwise a non-category or non-object updated key yields
`UnexpectedPropertyChange`; (4) otherwise the per-dependency checks run,
yielding `VersionChangeNotAllowed`, acceptance, or — in the degenerate case
where a changed category's base value is `null` — a fatal thrown
`TypeError`.  At most one reject reason is produced, the one of the
earliest failing stage. -/
theorem claim_C2_stage_order :
    (∀ (cfg : RunConfig) (input : PRInput) (b h : Json),
      supportedEvents.contains input.eventName = true →
      cfg.allowedActors.contains input.actor = true →
      onlyAllowedFilesChanged input.files = false →
      (runEval cfg { input with packageJsonBase := b, packageJsonPr := h }).result =
        .ok .fileNotAllowed) ∧
    (∀ (cfg : RunConfig) (input : PRInput),
      supportedEvents.contains input.eventName = true →
      cfg.allowedActors.contains input.actor = true →
      onlyAllowedFilesChanged input.files = true →
      ((jsonKeys (detailedDiff input.packageJsonBase
          input.packageJsonPr).added).isEmpty = false ∨
       (jsonKeys (detailedDiff input.packageJsonBase
          input.packageJsonPr).deleted).isEmpty = false) →
      (runEval cfg input).result = .ok .unexpectedChanges) ∧
    (∀ (cfg : RunConfig) (input : PRInput),
      supportedEvents.contains input.eventName = true →
      cfg.allowedActors.contains input.actor = true →
      onlyAllowedFilesChanged input.files = true →
      (jsonKeys (detailedDiff input.packageJsonBase
        input.packageJsonPr).added).isEmpty = true →
      (jsonKeys (detailedDiff input.packageJsonBase
        input.packageJsonPr).deleted).isEmpty = true →
      allowedPropsCheck (detailedDiff input.packageJsonBase
        input.packageJsonPr).updated = false →
      (runEval cfg input).result = .ok .unexpectedPropertyChange) ∧
    (∀ (cfg : RunConfig) (input : PRInput),
      supportedEvents.contains input.eventName = true →
      cfg.allowedActors.contains input.actor = true →
      onlyAllowedFilesChanged input.files = true →
      (jsonKeys (detailedDiff input.packageJsonBase
        input.packageJsonPr).added).isEmpty = true →
      (jsonKeys (detailedDiff input.packageJsonBase
        input.packageJsonPr).deleted).isEmpty = true →
      allowedPropsCheck (detailedDiff input.packageJsonBase
        input.packageJsonPr).updated = true →
      ((runEval cfg input).result = .ok .versionChangeNotAllowed ∨
       (runEval cfg input).result = .ok .accepted ∨
       (runEval cfg input).result = .error ())) := by
  refine ⟨?_, ?_, ?_, ?_⟩
  · intro cfg input b h hev hactor hfiles
    have hevm : input.eventName ∈ supportedEvents := by simpa using hev
    have hactm : input.actor ∈ cfg.allowedActors := by simpa using hactor
    unfold runEval
    simp [hevm, hactm, hfiles]
  · intro cfg input hev hactor hfiles hd
    have hevm : input.eventName ∈ supportedEvents := by simpa using hev
    have hactm : input.actor ∈ cfg.allowedActors := by simpa using hactor
    unfold runEval
    rcases hd with hd | hd <;> simp [hevm, hactm, hfiles, hd]
  · intro cfg input hev hactor hfiles hadded hdeleted hprops
    have hevm : input.eventName ∈ supportedEvents := by simpa using hev
    have hactm : input.actor ∈ cfg.allowedActors := by simpa using hactor
    unfold runEval
    simp [hevm, hactm, hfiles, hadded, hdeleted, hprops]
  · intro cfg input hev hactor hfiles hadded hdeleted hprops
    rw [runEval_stage4 cfg input hev hactor hfiles hadded hdeleted hprops]
    cases hch : allowedChangeCheck cfg.allowedUpdateTypes cfg.packageAllowList
      cfg.packageBlockList input.packageJsonBase input.packageJsonPr
      (detailedDiff input.packageJsonBase input.packageJsonPr).updated with
    | error e =>
      cases e
      exact Or.inr (Or.inr rfl)
    | ok b =>
      cases b
      · exact Or.inl rfl
      · exact Or.inr (Or.inl rfl)

/-- Counterexample to claim C2 as stated: an input that passes stages 1–3
but whose stage-4 per-dependency check neither rejects with
`VersionChangeNotAllowed` nor accepts — it throws (the base value of the
changed `devDependencies` category is `null`, and reading the old version
off it is a `TypeError`). -/
theorem claim_C2_counterexample :
    onlyAllowedFilesChanged [⟨"package.json", "modified"⟩] = true ∧
    (jsonKeys (detailedDiff (.obj [("devDependencies", .null)])
      (.obj [("devDependencies", .obj [("mod1", .str "1.0.1")])])).added).isEmpty = true ∧
    (jsonKeys (detailedDiff (.obj [("devDependencies", .null)])
      (.obj [("devDependencies", .obj [("mod1", .str "1.0.1")])])).deleted).isEmpty = true ∧
    allowedPropsCheck (detailedDiff (.obj [("devDependencies", .null)])
      (.obj [("devDependencies", .obj [("mod1", .str "1.0.1")])])).updated = true ∧
    (runEval ⟨["dependabot[bot]"], [("devDependencies", "patch")], false, [""], none,
        false, false⟩
      ⟨"pull_request", "dependabot[bot]", [⟨"package.json", "modified"⟩],
        .obj [("devDependencies", .null)],
        .obj [("devDependencies", .obj [("mod1", .str "1.0.1")])],
        none, none, "sha"⟩).result = .error () :=
  ⟨by rfl, by rfl, by rfl, by rfl, by rfl⟩

/-- Witness for C2 (amended): stage-1 short-circuit ignores the manifests,
stage 2 fires on an added key, and an in-policy patch bump reaches stage 4
and is accepted. -/
theorem claim_C2_witness :
    (runEval ⟨["dependabot[bot]"], [("devDependencies", "patch")], false, [""], none,
        false, false⟩
      {(⟨"pull_request", "dependabot[bot]", [⟨"index.js", "modified"⟩],
        .obj [], .obj [], none, none, "sha"⟩ : PRInput) with
          packageJsonBase := .num 1, packageJsonPr := .null}).result =
      .ok .fileNotAllowed ∧
    (runEval ⟨["dependabot[bot]"], [("devDependencies", "patch")], false, [""], none,
        false, false⟩
      ⟨"pull_request", "dependabot[bot]", [⟨"package.json", "modified"⟩],
        .obj [], .obj [("name", .str "x")], none, none, "sha"⟩).result =
      .ok .unexpectedChanges ∧
    (runEval ⟨["dependabot[bot]"], [("devDependencies", "patch")], false, [""], none,
        false, false⟩
      ⟨"pull_request", "dependabot[bot]", [⟨"package.json", "modified"⟩],
        .obj [("devDependencies", .obj [("mod1", .str "0.0.1")])],
        .obj [("devDependencies", .obj [("mod1", .str "0.0.2")])],
        none, none, "sha"⟩).result = .ok .accepted := by
  refine ⟨?_, ?_, ?_⟩
  · exact claim_C2_stage_order.1
      ⟨["dependabot[bot]"], [("devDependencies", "patch")], false, [""], none, false, false⟩
      ⟨"pull_request", "dependabot[bot]", [⟨"index.js", "modified"⟩],
        .obj [], .obj [], none, none, "sha"⟩ (.num 1) .null rfl rfl rfl
  · exact claim_C2_stage_order.2.1
      ⟨["dependabot[bot]"], [("devDependencies", "patch")], false, [""], none, false, false⟩
      ⟨"pull_request", "dependabot[bot]", [⟨"package.json", "modified"⟩],
        .obj [], .obj [("name", .str "x")], none, none, "sha"⟩ rfl rfl rfl
      (Or.inl (by rfl))
  · have h := claim_C2_stage_order.2.2.2
      ⟨["dependabot[bot]"], [("devDependencies", "patch")], false, [""], none, false, false⟩
      ⟨"pull_request", "dependabot[bot]", [⟨"package.json", "modified"⟩],
        .obj [("devDependencies", .obj [("mod1", .str "0.0.1")])],
        .obj [("devDependencies", .obj [("mod1", .str "0.0.2")])],
        none, none, "sha"⟩ rfl rfl rfl (by rfl) (by rfl) (by rfl)
    have hres : (runEval
        ⟨["dependabot[bot]"], [("devDependencies", "patch")], false, [""], none, false, false⟩
        ⟨"pull_request", "dependabot[bot]", [⟨"package.json", "modified"⟩],
          .obj [("devDependencies", .obj [("mod1", .str "0.0.1")])],
          .obj [("devDependencies", .obj [("mod1", .str "0.0.2")])],
          none, none, "sha"⟩).result = .ok .accepted := by rfl
    rcases h with h | h | h
    · rw [hres] at h
      simp at h
    · exact h
    · rw [hres] at h
      simp at h

/-! ## The per-dependency check -/

theorem jsEveryM_ok_true_iff {α : Type} (f : α → Except Unit Bool) (l : List α) :
    jsEveryM f l = .ok true ↔ ∀ x ∈ l, f x = .ok true := by
  induction l with
  | nil => simp [jsEveryM]
  | cons x rest ih =>
    simp only [jsEveryM]
    cases hfx : f x with
    | error e =>
      constructor
      · intro h; cases h
      · intro h
        have := h x (List.mem_cons_self _ _)
        rw [hfx] at this
        cases this
    | ok b =>
      cases b
      · constructor
        · intro h; cases h
        · intro h
          have := h x (List.mem_cons_self _ _)
          rw [hfx] at this
          cases this
      · rw [ih]
        constructor
        · intro h y hy
          rcases List.mem_cons.mp hy with rfl | hy
          · exact hfx
          · exact h y hy
        · intro h y hy
          exact h y (List.mem_cons_of_mem _ hy)

theorem allowedChangeCheck_ok_true_iff (auts : List (String × String))
    (al : Option (List String)) (bl : List String) (base pr updated : Json) :
    allowedChangeCheck auts al bl base pr updated = .ok true ↔
      ∀ prop ∈ jsonKeys updated, ∀ dep ∈ jsonKeys (jsGetD updated prop),
        checkDependency al bl (lookupUpdateTypes auts prop) base pr prop dep
          (jsGetD updated prop) = .ok true := by
  unfold allowedChangeCheck
  rw [jsEveryM_ok_true_iff]
  constructor
  · intro h prop hprop dep hdep
    have := h prop hprop
    rw [jsEveryM_ok_true_iff] at this
    exact this dep hdep
  · intro h prop hprop
    rw [jsEveryM_ok_true_iff]
    exact fun dep hdep => h prop hprop dep hdep

theorem checkDependency_false_nonstring (al : Option (List String)) (bl : List String)
    (types : List String) (base pr : Json) (prop dep : String) (cd : Json)
    (h : jsTypeof (jsGetD cd dep) ≠ "string") :
    checkDependency al bl types base pr prop dep cd = .ok false := by
  unfold checkDependency
  rw [if_pos h]

theorem checkDependency_false_blocked (al : Option (List String)) (bl : List String)
    (types : List String) (base pr : Json) (prop dep : String) (cd : Json)
    (h : bl.contains dep = true) :
    checkDependency al bl types base pr prop dep cd = .ok false := by
  unfold checkDependency
  split_ifs with h1 h2
  · rfl
  · rfl
  · rfl

theorem checkDependency_false_not_allowed (l : List String) (bl : List String)
    (types : List String) (base pr : Json) (prop dep : String) (cd : Json)
    (h : l.contains dep = false) :
    checkDependency (some l) bl types base pr prop dep cd = .ok false := by
  unfold checkDependency
  split_ifs with h1 h2
  · rfl
  · rfl
  all_goals
    exfalso
    simp only [Bool.not_eq_true] at h2
    simp at h2
    have hnm : dep ∉ l := by simpa using h
    exact hnm h2

theorem validVersionChange_empty_never_true (o n : String) :
    validVersionChange o n [] ≠ some true := by
  unfold validVersionChange
  cases semverRegexCapture o with
  | none => simp
  | some p1 =>
    cases semverRegexCapture n with
    | none => simp
    | some p2 =>
      by_cases hp : p1 ≠ p2
      · simp [hp]
      · simp only [hp, if_false]
        cases parseSemver (sliceFrom o p1.length) with
        | none => simp
        | some vo =>
          cases parseSemver (sliceFrom n p2.length) with
          | none => simp
          | some vn =>
            by_cases hg : semverGte vo vn
            · simp [hg]
            · simp only [hg, if_false]
              cases semverDiff vo vn <;> simp [List.filter]

theorem lookupUpdateTypes_absent (auts : List (String × String)) (prop : String)
    (h : ∀ p ∈ auts, p.1 ≠ prop) : lookupUpdateTypes auts prop = [] := by
  unfold lookupUpdateTypes
  have : auts.filter (fun p => p.1 == prop) = [] := by
    rw [List.filter_eq_nil]
    intro p hp
    simp [h p hp]
  rw [this]
  rfl

/-- Claim C3 (amended): within every changed category, every changed
dependency must have a string diff value, must pass the allow/block name
filters, and its old/new versions must classify to an allowed bump — a
category absent from the configuration allows nothing.  Any single failure
rejects the whole PR with `VersionChangeNotAllowed`, except the degenerate
case where a changed category's base value is `null`, which throws a fatal
`TypeError` while reading the old version; the PR is accepted only when
every changed dependency passes all of these checks. -/
theorem claim_C3_version_change :
    (∀ (auts : List (String × String)) (al : Option (List String)) (bl : List String)
      (base pr updated : Json),
      allowedChangeCheck auts al bl base pr updated = .ok true ↔
        ∀ prop ∈ jsonKeys updated, ∀ dep ∈ jsonKeys (jsGetD updated prop),
          checkDependency al bl (lookupUpdateTypes auts prop) base pr prop dep
            (jsGetD updated prop) = .ok true) ∧
    (∀ al bl types base pr prop dep cd, jsTypeof (jsGetD cd dep) ≠ "string" →
      checkDependency al bl types base pr prop dep cd = .ok false) ∧
    (∀ al bl types base pr prop dep cd, bl.contains dep = true →
      checkDependency al bl types base pr prop dep cd = .ok false) ∧
    (∀ l bl types base pr prop dep cd, l.contains dep = false →
      checkDependency (some l) bl types base pr prop dep cd = .ok false) ∧
    (∀ o n, validVersionChange o n [] ≠ some true) ∧
    (∀ auts prop, (∀ p ∈ auts, Prod.fst p ≠ prop) → lookupUpdateTypes auts prop = []) ∧
    (∀ (cfg : RunConfig) (input : PRInput),
      supportedEvents.contains input.eventName = true →
      cfg.allowedActors.contains input.actor = true →
      onlyAllowedFilesChanged input.files = true →
      (jsonKeys (detailedDiff input.packageJsonBase
        input.packageJsonPr).added).isEmpty = true →
      (jsonKeys (detailedDiff input.packageJsonBase
        input.packageJsonPr).deleted).isEmpty = true →
      allowedPropsCheck (detailedDiff input.packageJsonBase
        input.packageJsonPr).updated = true →
      ((∃ prop ∈ jsonKeys (detailedDiff input.packageJsonBase
          input.packageJsonPr).updated,
        ∃ dep ∈ jsonKeys (jsGetD (detailedDiff input.packageJsonBase
          input.packageJsonPr).updated prop),
        checkDependency cfg.packageAllowList cfg.packageBlockList
          (lookupUpdateTypes cfg.allowedUpdateTypes prop)
          input.packageJsonBase input.packageJsonPr prop dep
          (jsGetD (detailedDiff input.packageJsonBase
            input.packageJsonPr).updated prop) ≠ .ok true) →
        ((runEval cfg input).result = .ok .versionChangeNotAllowed ∨
         (runEval cfg input).result = .error ())) ∧
      ((∀ prop ∈ jsonKeys (detailedDiff input.packageJsonBase
          input.packageJsonPr).updated,
        ∀ dep ∈ jsonKeys (jsGetD (detailedDiff input.packageJsonBase
          input.packageJsonPr).updated prop),
        checkDependency cfg.packageAllowList cfg.packageBlockList
          (lookupUpdateTypes cfg.allowedUpdateTypes prop)
          input.packageJsonBase input.packageJsonPr prop dep
          (jsGetD (detailedDiff input.packageJsonBase
            input.packageJsonPr).updated prop) = .ok true) →
        (runEval cfg input).result = .ok .accepted)) := by
  refine ⟨allowedChangeCheck_ok_true_iff, checkDependency_false_nonstring,
    checkDependency_false_blocked, checkDependency_false_not_allowed,
    validVersionChange_empty_never_true, lookupUpdateTypes_absent, ?_⟩
  intro cfg input hev hactor hfiles hadded hdeleted hprops
  have hst := runEval_stage4 cfg input hev hactor hfiles hadded hdeleted hprops
  constructor
  · rintro ⟨prop, hprop, dep, hdep, hfail⟩
    have hne : allowedChangeCheck cfg.allowedUpdateTypes cfg.packageAllowList
        cfg.packageBlockList input.packageJsonBase input.packageJsonPr
        (detailedDiff input.packageJsonBase input.packageJsonPr).updated ≠ .ok true := by
      intro hok
      exact hfail ((allowedChangeCheck_ok_true_iff _ _ _ _ _ _).mp hok prop hprop dep hdep)
    rw [hst]
    cases hch : allowedChangeCheck cfg.allowedUpdateTypes cfg.packageAllowList
      cfg.packageBlockList input.packageJsonBase input.packageJsonPr
      (detailedDiff input.packageJsonBase input.packageJsonPr).updated with
    | error e =>
      cases e
      exact Or.inr rfl
    | ok b =>
      cases b
      · exact Or.inl rfl
      · exact absurd hch hne
  · intro hall
    rw [hst]
    rw [(allowedChangeCheck_ok_true_iff _ _ _ _ _ _).mpr hall]

/-- Counterexample to claim C3 as stated: the diffed value of `mod1` is not
a string on both sides (its base category is `null`, so `mod1` has no old
version at all), the name passes the allow/block filters, and yet the
evaluation does not reject with `VersionChangeNotAllowed` — it throws a
`TypeError` reading `null["mod1"]`. -/
theorem claim_C3_counterexample :
    (runEval ⟨["dependabot[bot]"], [("dependencies", "patch")], false, [""], none,
        false, false⟩
      ⟨"pull_request", "dependabot[bot]", [⟨"package.json", "modified"⟩],
        .obj [("dependencies", .null)],
        .obj [("dependencies", .obj [("mod1", .str "2.0.0")])],
        none, none, "sha"⟩).result = .error () ∧
    (runEval ⟨["dependabot[bot]"], [("dependencies", "patch")], false, [""], none,
        false, false⟩
      ⟨"pull_request", "dependabot[bot]", [⟨"package.json", "modified"⟩],
        .obj [("dependencies", .null)],
        .obj [("dependencies", .obj [("mod1", .str "2.0.0")])],
        none, none, "sha"⟩).result ≠ .ok .versionChangeNotAllowed :=
  ⟨by rfl, by rw [show (runEval ⟨["dependabot[bot]"], [("dependencies", "patch")], false,
      [""], none, false, false⟩
      ⟨"pull_request", "dependabot[bot]", [⟨"package.json", "modified"⟩],
        .obj [("dependencies", .null)],
        .obj [("dependencies", .obj [("mod1", .str "2.0.0")])],
        none, none, "sha"⟩).result = .error () from rfl]; simp⟩

/-- Witness for C3 (amended): a blocked package's minor bump makes the whole
PR reject. -/
theorem claim_C3_witness :
    (runEval ⟨["dependabot[bot]"], [("dependencies", "minor")], false, ["badpkg"], none,
        false, false⟩
      ⟨"pull_request", "dependabot[bot]", [⟨"package.json", "modified"⟩],
        .obj [("dependencies", .obj [("badpkg", .str "1.0.0")])],
        .obj [("dependencies", .obj [("badpkg", .str "1.1.0")])],
        none, none, "sha"⟩).result = .ok .versionChangeNotAllowed ∨
    (runEval ⟨["dependabot[bot]"], [("dependencies", "minor")], false, ["badpkg"], none,
        false, false⟩
      ⟨"pull_request", "dependabot[bot]", [⟨"package.json", "modified"⟩],
        .obj [("dependencies", .obj [("badpkg", .str "1.0.0")])],
        .obj [("dependencies", .obj [("badpkg", .str "1.1.0")])],
        none, none, "sha"⟩).result = .error () :=
  (claim_C3_version_change.2.2.2.2.2.2
    ⟨["dependabot[bot]"], [("dependencies", "minor")], false, ["badpkg"], none,
      false, false⟩
    ⟨"pull_request", "dependabot[bot]", [⟨"package.json", "modified"⟩],
      .obj [("dependencies", .obj [("badpkg", .str "1.0.0")])],
      .obj [("dependencies", .obj [("badpkg", .str "1.1.0")])],
      none, none, "sha"⟩ rfl rfl rfl rfl rfl rfl).1
    ⟨"dependencies", by decide, "badpkg", by decide, by
      rw [show checkDependency none ["badpkg"]
        (lookupUpdateTypes [("dependencies", "minor")] "dependencies")
        (.obj [("dependencies", .obj [("badpkg", .str "1.0.0")])])
        (.obj [("dependencies", .obj [("badpkg", .str "1.1.0")])])
        "dependencies" "badpkg"
        (jsGetD (detailedDiff (.obj [("dependencies", .obj [("badpkg", .str "1.0.0")])])
          (.obj [("dependencies", .obj [("badpkg", .str "1.1.0")])])).updated
          "dependencies") = Except.ok false from rfl]
      simp⟩
